import Mathlib

/-!
# Savills landing page: nearest-centre resolver, centroid resolver, colorizer, normalizer

Shallow embedding of the pure helpers of
`src/savills_modern_landing_page_with_interactive_global_map.jsx` and
`src/app/page.js` (the two files carry the same logic).

JavaScript numbers are modelled as the elements of a linearly ordered field `α`
(exact arithmetic: rounding, infinities and NaN are not modelled), so every
definition runs on `ℚ` and can be read on `ℝ`. The functions of the JavaScript
`Math` object that the code calls are a parameter (`Math α`); `Math.real` is
their meaning on the real numbers. A thrown `TypeError` is the value `none`.
`Math.round` is `⌊x + 1/2⌋`. Strings are Lean strings, `String.prototype.replace` with a
string pattern is the replacement of the first occurrence on the list of characters.
The object `centroids` of the capture step is the map from its own keys to their values,
with no order of the keys, and `centroids[name]` also sees the properties inherited from
`Object.prototype`. For `connections` the object is given by the list of its entries.
-/

namespace Savills

variable {α : Type} [LinearOrderedField α]

/-! ## Data model -/

/-- The members of the JavaScript `Math` object used by `haversine`. -/
structure Math (α : Type) where
  sin : α → α
  cos : α → α
  asin : α → α
  sqrt : α → α
  PI : α

/-- The real-number meaning of `Math.sin`, `Math.cos`, `Math.asin`, `Math.sqrt`, `Math.PI`. -/
noncomputable def Math.real : Math ℝ where
  sin := Real.sin
  cos := Real.cos
  asin := Real.arcsin
  sqrt := Real.sqrt
  PI := Real.pi

/-- A coordinate pair `[lon, lat]`, in degrees. -/
abbrev Coord (α : Type) := α × α

/-- One entry of `viadexDCs`: `{ name, country, coord }`. -/
structure DC (α : Type) where
  name : String
  country : String
  coord : Coord α
deriving DecidableEq

/-- The accumulator `{ d, dc }` of the reduce inside `connections`. -/
structure Best (α : Type) where
  d : α
  dc : DC α
deriving DecidableEq

/-- One connector line `{ from, to, dc, country }`. -/
structure Connector (α : Type) where
  «from» : Coord α
  «to» : Coord α
  dc : DC α
  country : String
deriving DecidableEq

/-! ## haversine -/

/-- The inner helper `toRad = v => (v * Math.PI) / 180`. -/
def toRad (M : Math α) (v : α) : α := (v * M.PI) / 180

/-- The function `haversine([lon1, lat1], [lon2, lat2])`. -/
def haversine (M : Math α) (p q : Coord α) : α :=
  let lon1 := p.1
  let lat1 := p.2
  let lon2 := q.1
  let lat2 := q.2
  let R : α := 6371
  let dLat := toRad M (lat2 - lat1)
  let dLon := toRad M (lon2 - lon1)
  let a := M.sin (dLat / 2) ^ 2 + M.cos (toRad M lat1) * M.cos (toRad M lat2) * M.sin (dLon / 2) ^ 2
  2 * R * M.asin (M.sqrt a)

/-! ## connections -/

/-- The callback of `viadexDCs.reduce(..., null)`:
`const d = haversine([c[0], c[1]], dc.coord); return !best || d < best.d ? { d, dc } : best`. -/
def nearestStep (M : Math α) (c : Coord α) (best : Option (Best α)) (dc : DC α) :
    Option (Best α) :=
  let d := haversine M (c.1, c.2) dc.coord
  match best with
  | none => some ⟨d, dc⟩
  | some b => if d < b.d then some ⟨d, dc⟩ else best

/-- The value `nearest` of `connections`: the reduce over the centre list, started at `null`. -/
def nearest (M : Math α) (viadexDCs : List (DC α)) (c : Coord α) : Option (Best α) :=
  viadexDCs.foldl (nearestStep M c) none

/-- The body of `connections`: for each entry `[country, c]` of `Object.entries(centroids)`
push a connector when `nearest` is not `null`. The object `centroids` is given by its entries. -/
def connections (M : Math α) (viadexDCs : List (DC α)) (centroids : List (String × Coord α)) :
    List (Connector α) :=
  centroids.foldl
    (fun lines e =>
      match nearest M viadexDCs e.2 with
      | some n => lines ++ [Connector.mk (e.2.1, e.2.2) n.dc.coord n.dc e.1]
      | none => lines)
    []

/-- The distance `d` that the scan computes for the centre `dc`. -/
abbrev distTo (M : Math α) (c : Coord α) (dc : DC α) : α := haversine M c dc.coord

/-! ## geoCentroid -/

/-- The `type` and `coordinates` of a geometry record. A `Polygon` carries its list of rings,
a `MultiPolygon` its list of polygons, each a list of rings; a ring is a list of points
`[lon, lat]`. Any other `type` is `other`: its coordinates are never read. -/
inductive Geometry (α : Type) where
  | Polygon (coordinates : List (List (Coord α)))
  | MultiPolygon (coordinates : List (List (List (Coord α))))
  | other
deriving DecidableEq

/-- The record `geo` read by `geoCentroid`: `bbox` is absent or an array of numbers of any
length. -/
structure Geo (α : Type) where
  bbox : Option (List α)
  geometry : Geometry α
deriving DecidableEq

/-- The three accumulators `sumX`, `sumY`, `count` of `geoCentroid`. -/
structure Sums (α : Type) where
  sumX : α
  sumY : α
  count : α
deriving DecidableEq

/-- The closure `add = pt => { sumX += pt[0]; sumY += pt[1]; count++; }`. -/
def add (s : Sums α) (pt : Coord α) : Sums α :=
  ⟨s.sumX + pt.1, s.sumY + pt.2, s.count + 1⟩

/-- The traversal of `geoCentroid` from `sumX = 0, sumY = 0, count = 0`:
`coordinates[0].forEach(add)` for a `Polygon`,
`coordinates.forEach(poly => poly[0].forEach(add))` for a `MultiPolygon`, nothing otherwise.
Calling `forEach` on the `undefined` that `[0]` gives on an empty array throws: `none`. -/
def traverse (g : Geometry α) : Option (Sums α) :=
  match g with
  | .Polygon coordinates =>
    match coordinates.head? with
    | some ring => some (ring.foldl add ⟨0, 0, 0⟩)
    | none => none
  | .MultiPolygon coordinates =>
    coordinates.foldlM
      (fun s poly =>
        match poly.head? with
        | some ring => some (ring.foldl add s)
        | none => none)
      ⟨0, 0, 0⟩
  | .other => some ⟨0, 0, 0⟩

/-- The function `geoCentroid(geo)`: the midpoint of a 4-number `bbox`, else the mean of the
traversed points, else `[0, 0]`; `none` when the traversal throws. -/
def geoCentroid (geo : Geo α) : Option (Coord α) :=
  match geo.bbox with
  | some [minX, minY, maxX, maxY] => some ((minX + maxX) / 2, (minY + maxY) / 2)
  | _ =>
    match traverse geo.geometry with
    | some s => if s.count = 0 then some (0, 0) else some (s.sumX / s.count, s.sumY / s.count)
    | none => none

/-- The test `bbox && bbox.length === 4` fails: `bbox` is absent or its length is not 4. -/
def NoBBox4 (bbox : Option (List α)) : Prop := ∀ l, bbox = some l → l.length ≠ 4

/-! ## yellowScale -/

/-- The argument `pct` of `yellowScale`: `null`, `undefined` or a number. -/
inductive Pct (α : Type) where
  | null
  | undefined
  | num (v : α)
deriving DecidableEq

/-- The function `Math.round` in exact arithmetic: the nearest integer, a half rounding up. -/
def Math.round [FloorRing α] (x : α) : ℤ := ⌊x + 1 / 2⌋

/-- The closure `lerp = (a,b,t) => Math.round(a+(b-a)*t)`. -/
def lerp [FloorRing α] (a b t : α) : ℤ := Math.round (a + (b - a) * t)

/-- The locals `r`, `g`, `b` of `yellowScale` for a number `pct` that passed the first test:
`t = Math.min(1, Math.max(0, (pct - min) / (max - min)))` with `min = 1`, `max = 25`, and
`lerp` between `c1 = (255, 247, 161)` and `c2 = (230, 207, 0)`. -/
def channels [FloorRing α] (pct : α) : ℤ × ℤ × ℤ :=
  let min : α := 1
  let max : α := 25
  let t := Min.min 1 (Max.max 0 ((pct - min) / (max - min)))
  (lerp 255 230 t, lerp 247 207 t, lerp 161 0 t)

/-- The template string of `yellowScale`: "rgb(r, g, b)" with the channels in decimal. -/
def rgb (c : ℤ × ℤ × ℤ) : String :=
  "rgb(" ++ toString c.1 ++ ", " ++ toString c.2.1 ++ ", " ++ toString c.2.2 ++ ")"

/-- The function `yellowScale(pct)`: `if (!pct || pct <= 0) return "#fffbe6"`, else the
interpolated colour. `!pct` holds for `null`, `undefined` and the number 0. -/
def yellowScale [FloorRing α] (pct : Pct α) : String :=
  match pct with
  | .null => "#fffbe6"
  | .undefined => "#fffbe6"
  | .num v => if v = 0 ∨ v ≤ 0 then "#fffbe6" else rgb (channels v)

/-! ## normalizeName -/

/-- The call `s.replace(pat, rep)` with a string pattern, on lists of characters: the first
occurrence of `pat` in `s` is replaced by `rep`, and `s` is returned when there is none. -/
def replaceFirst (s pat rep : List Char) : List Char :=
  match s with
  | [] => if pat.isPrefixOf [] then rep else []
  | c :: cs =>
    if pat.isPrefixOf (c :: cs) then rep ++ (c :: cs).drop pat.length
    else c :: replaceFirst cs pat rep

/-- The method `String.prototype.replace(pat, rep)` for a string `pat` and a replacement
without `$` (no replacement text of `normalizeName` contains one). -/
def replace (s pat rep : String) : String := ⟨replaceFirst s.data pat.data rep.data⟩

/-- The function `normalizeName(name)` of
`savills_modern_landing_page_with_interactive_global_map.jsx`. -/
def normalizeName (name : String) : String :=
  name
    |> (replace · "United States of America" "United States")
    |> (replace · "Russian Federation" "Russia")
    |> (replace · "Czechia" "Czech Republic")
    |> (replace · "Korea, Republic of" "South Korea")
    |> (replace · "Korea (Republic of)" "South Korea")
    |> (replace · "Korea, South" "South Korea")
    |> (replace · "Taiwan, Province of China" "Taiwan")
    |> (replace · "Hong Kong" "Hong Kong SAR")
    |> (replace · "Macao" "Macao SAR, China")
    |> (replace · "Netherlands" "Netherlands")
    |> (replace · "United Arab Emirates" "United Arab Emirates")
    |> (replace · "Bahamas" "The Bahamas")
    |> (replace · "Cayman Islands" "The Cayman Islands")
    |> (replace · "Seychelles" "Seychelles")

/-- The function `normalizeName(name)` of `app/page.js`: the same rules without the last
one, the two that change nothing moved to the end. -/
def normalizeNamePage (name : String) : String :=
  name
    |> (replace · "United States of America" "United States")
    |> (replace · "Russian Federation" "Russia")
    |> (replace · "Czechia" "Czech Republic")
    |> (replace · "Korea, Republic of" "South Korea")
    |> (replace · "Korea (Republic of)" "South Korea")
    |> (replace · "Korea, South" "South Korea")
    |> (replace · "Taiwan, Province of China" "Taiwan")
    |> (replace · "Hong Kong" "Hong Kong SAR")
    |> (replace · "Macao" "Macao SAR, China")
    |> (replace · "Bahamas" "The Bahamas")
    |> (replace · "Cayman Islands" "The Cayman Islands")
    |> (replace · "Netherlands" "Netherlands")
    |> (replace · "United Arab Emirates" "United Arab Emirates")

/-- The rule table of `normalizeName` (.jsx), in order: source text and replacement. -/
def rules : List (String × String) :=
  [("United States of America", "United States"),
    ("Russian Federation", "Russia"),
    ("Czechia", "Czech Republic"),
    ("Korea, Republic of", "South Korea"),
    ("Korea (Republic of)", "South Korea"),
    ("Korea, South", "South Korea"),
    ("Taiwan, Province of China", "Taiwan"),
    ("Hong Kong", "Hong Kong SAR"),
    ("Macao", "Macao SAR, China"),
    ("Netherlands", "Netherlands"),
    ("United Arab Emirates", "United Arab Emirates"),
    ("Bahamas", "The Bahamas"),
    ("Cayman Islands", "The Cayman Islands"),
    ("Seychelles", "Seychelles")]

/-- The rule table of `normalizeName` (page.js), in order. -/
def rulesPage : List (String × String) :=
  [("United States of America", "United States"),
    ("Russian Federation", "Russia"),
    ("Czechia", "Czech Republic"),
    ("Korea, Republic of", "South Korea"),
    ("Korea (Republic of)", "South Korea"),
    ("Korea, South", "South Korea"),
    ("Taiwan, Province of China", "Taiwan"),
    ("Hong Kong", "Hong Kong SAR"),
    ("Macao", "Macao SAR, China"),
    ("Bahamas", "The Bahamas"),
    ("Cayman Islands", "The Cayman Islands"),
    ("Netherlands", "Netherlands"),
    ("United Arab Emirates", "United Arab Emirates")]

/-- A chain of `replace` calls, one per rule, in the order of the table. -/
def applyRules (rs : List (String × String)) (s : List Char) : List Char :=
  rs.foldl (fun acc r => replaceFirst acc r.1.data r.2.data) s

/-- The table `heatmapPercent`: canonical country name and percentage, in source order. -/
def heatmapPercent : List (String × ℚ) :=
  [("Abu Dhabi, United Arab Emirates", 1),
    ("Antigua and Barbuda", 1),
    ("Australia", 7),
    ("Austria", 1),
    ("The Bahamas", 1),
    ("Bahrain", 1),
    ("Barbados", 1),
    ("Belgium", 1),
    ("Botswana", 1),
    ("Bulgaria", 1),
    ("Canada", 1),
    ("The Cayman Islands", 1),
    ("China", 10),
    ("Croatia", 1),
    ("Cyprus", 1),
    ("Czech Republic", 1),
    ("Denmark", 1),
    ("Dubai, United Arab Emirates", 1),
    ("Egypt", 1),
    ("Estonia", 1),
    ("Finland", 1),
    ("France", 3),
    ("Germany", 3),
    ("Gibraltar", 1),
    ("Greece", 1),
    ("Guernsey", 1),
    ("Hong Kong SAR", 6),
    ("Hungary", 1),
    ("India", 3),
    ("Indonesia", 1),
    ("Ireland", 2),
    ("Israel", 1),
    ("Italy", 2),
    ("Japan", 2),
    ("Jersey", 1),
    ("Kenya", 1),
    ("South Korea", 1),
    ("Latvia", 1),
    ("Lithuania", 1),
    ("Luxembourg", 1),
    ("Macao SAR, China", 1),
    ("Malaysia", 1),
    ("Mauritius", 1),
    ("Mexico", 1),
    ("Monaco", 1),
    ("Montenegro", 1),
    ("Mozambique", 1),
    ("Namibia", 1),
    ("Netherlands", 2),
    ("New Zealand", 1),
    ("Norway", 1),
    ("Oman", 1),
    ("Pakistan", 1),
    ("Philippines", 1),
    ("Poland", 1),
    ("Portugal", 1),
    ("Puerto Rico", 1),
    ("Romania", 1),
    ("Saudi Arabia", 1),
    ("Serbia", 1),
    ("Seychelles", 1),
    ("Sharjah, United Arab Emirates", 1),
    ("Singapore", 3),
    ("South Africa", 2),
    ("Spain", 2),
    ("Saint Kitts and Nevis", 1),
    ("Sweden", 1),
    ("Switzerland", 1),
    ("Taiwan", 1),
    ("Thailand", 1),
    ("Turks and Caicos Islands", 1),
    ("United Arab Emirates", 2),
    ("United Kingdom", 25),
    ("United States", 4),
    ("Vietnam", 1),
    ("Zambia", 1),
    ("Zimbabwe", 1)]

/-- A weight on characters that every rule of `normalizeName` with a replacement other than
its source text strictly raises (used to show that such a rule, once applied, is not undone
by the rules after it). -/
def charWeight (c : Char) : ℤ :=
  if c = 'S' then 3
  else if c = 'p' ∨ c = 'T' then 1
  else if c = 'A' ∨ c = 'F' ∨ c = 'P' ∨ c = ',' then -1
  else 0

/-- The sum of the weights of the characters of a text. -/
def weight (l : List Char) : ℤ := (l.map charWeight).sum

/-! ## Centroid capture -/

/-- The array `officeCountries` of the .jsx file. -/
def officeCountries : List String :=
  ["Abu Dhabi", "Antigua", "Australia", "Austria", "The Bahamas", "Bahrain", "Barbados",
    "Belgium", "Botswana", "Bulgaria", "Canada", "The Cayman Islands", "China", "Croatia",
    "Cyprus", "Czech Republic", "Denmark", "Dubai", "Egypt", "Estonia", "Finland", "France",
    "Germany", "Gibraltar", "Greece", "Guernsey", "Hong Kong SAR", "Hungary", "India",
    "Indonesia", "Ireland", "Israel", "Italy", "Japan", "Jersey", "Kenya", "Korea", "Latvia",
    "Lithuania", "Luxembourg", "Macao SAR", "Malaysia", "Mauritius", "Mexico", "Monaco",
    "Montenegro", "Mozambique", "Namibia", "The Netherlands", "New Zealand", "Norway", "Oman",
    "Pakistan", "The Philippines", "Poland", "Portugal", "Puerto Rico", "Romania",
    "Saudi Arabia", "Serbia", "The Seychelles", "Sharjah", "Singapore", "South Africa", "Spain",
    "St Kitts & Nevis", "Sweden", "Switzerland", "Taiwan, China", "Thailand", "Turks & Caicos",
    "UAE", "United Kingdom", "United States", "Vietnam", "Zambia", "Zimbabwe"]

/-- One element of `geographies`: its `properties.name` and the members of `geo` that
`geoCentroid` reads. -/
structure Geography (α : Type) where
  name : String
  geo : Geo α
deriving DecidableEq

/-- The own properties of the object `centroids`: the value held under each key. No order
of the keys is part of it. -/
abbrev Centroids (α : Type) := String → Option (Coord α)

/-- The property names that every plain object inherits from `Object.prototype`; the value
read under each of them is truthy. -/
def inherited : List String :=
  ["constructor", "hasOwnProperty", "isPrototypeOf", "propertyIsEnumerable", "toLocaleString",
    "toString", "valueOf", "__proto__", "__defineGetter__", "__defineSetter__",
    "__lookupGetter__", "__lookupSetter__"]

/-- The expression `centroids[name]` used as a condition: truthy when the object holds an
entry under `name` (an array) or inherits a property of that name. -/
def truthy (centroids : Centroids α) (name : String) : Bool :=
  (centroids name).isSome || decide (name ∈ inherited)

/-- The object after `obj[name] = c`, also the object `{ ...obj, [name]: c }`: `c` under
`name`, every other key as before. The code writes only under a name for which
`centroids[name]` was falsy, so never under the name of an inherited property. -/
def put (obj : Centroids α) (name : String) (c : Coord α) : Centroids α :=
  fun n => if n = name then some c else obj n

/-- The list `es` is `Object.entries(obj)` up to the order: each own entry once. -/
def IsEntries (es : List (String × Coord α)) (obj : Centroids α) : Prop :=
  (es.map Prod.fst).Nodup ∧ ∀ n c, (n, c) ∈ es ↔ obj n = some c

/-- The local `hasOffice` of the .jsx file:
`Object.keys(heatmapPercent).includes(name) || officeCountries.includes(name) ||
officeCountries.includes(rawName)`. -/
def hasOffice (name rawName : String) : Bool :=
  decide (name ∈ heatmapPercent.map Prod.fst) || decide (name ∈ officeCountries) ||
    decide (rawName ∈ officeCountries)

/-- The local `hasOffice` of `page.js`: `Object.keys(heatmapPercent).includes(name)`. The
table `heatmapPercent` is imported there from `lib/data`, so it is a parameter. -/
def hasOfficePage (heatmapPercent : List (String × ℚ)) (name : String) : Bool :=
  decide (name ∈ heatmapPercent.map Prod.fst)

/-- The capture step of the .jsx file for one geography; the object `centroids` is changed in
place: `if (hasOffice && cx && cy) { centroids[name] || (centroids[name] = [cx, cy]); }`.
The result is the object after the step, `none` when `geoCentroid` throws. -/
def captureStep (centroids : Centroids α) (g : Geography α) : Option (Centroids α) :=
  let rawName := g.name
  let name := normalizeName rawName
  match geoCentroid g.geo with
  | none => none
  | some (cx, cy) =>
    if hasOffice name rawName = true ∧ cx ≠ 0 ∧ cy ≠ 0 then
      if truthy centroids name = true then some centroids
      else some (put centroids name (cx, cy))
    else some centroids

/-- The updater `prev => ({ ...prev, [name]: [cx, cy] })` that the step of `page.js` passes
to `setCentroids`. -/
def updater (name : String) (c : Coord α) (prev : Centroids α) : Centroids α :=
  put prev name c

/-- The capture step of `page.js` for one geography:
`if (hasOffice && cx && cy) { if (!centroids[name]) {
setCentroids(prev => ({ ...prev, [name]: [cx, cy] })); } }`.
The result is the name and centroid of the updater passed to `setCentroids`, `some none` when
`setCentroids` is not called, `none` when `geoCentroid` throws. -/
def captureStepPage (heatmapPercent : List (String × ℚ)) (centroids : Centroids α)
    (g : Geography α) : Option (Option (String × Coord α)) :=
  let rawName := g.name
  let name := normalizeNamePage rawName
  match geoCentroid g.geo with
  | none => none
  | some (cx, cy) =>
    if hasOfficePage heatmapPercent name = true ∧ cx ≠ 0 ∧ cy ≠ 0 then
      if truthy centroids name = true then some none
      else some (some (name, (cx, cy)))
    else some none

/-- The loop `geographies.map(...)` of the .jsx file: the steps in order, each on the object
left by the one before. -/
def capturePass (centroids : Centroids α) (geographies : List (Geography α)) :
    Option (Centroids α) :=
  geographies.foldlM captureStep centroids

/-! ## Nearest-centre resolver: properties -/

theorem nearestStep_none (M : Math α) (c : Coord α) (dc : DC α) :
    nearestStep M c none dc = some ⟨distTo M c dc, dc⟩ := rfl

theorem nearestStep_some (M : Math α) (c : Coord α) (b : Best α) (dc : DC α) :
    nearestStep M c (some b) dc
      = if distTo M c dc < b.d then some ⟨distTo M c dc, dc⟩ else some b := rfl

/-- The scan resumed from an accumulator `b`: either `b` survives and nothing that follows
is strictly closer, or the first strictly closer minimal centre that follows replaces it. -/
theorem foldl_nearestStep_some (M : Math α) (c : Coord α) (l : List (DC α)) (b : Best α) :
    (l.foldl (nearestStep M c) (some b) = some b ∧ ∀ y ∈ l, b.d ≤ distTo M c y) ∨
    ∃ pre x post, l = pre ++ x :: post ∧
      l.foldl (nearestStep M c) (some b) = some ⟨distTo M c x, x⟩ ∧
      distTo M c x < b.d ∧
      (∀ y ∈ pre, distTo M c x < distTo M c y) ∧
      (∀ y ∈ post, distTo M c x ≤ distTo M c y) := by
  induction l generalizing b with
  | nil => left; simp
  | cons y l ih =>
    rw [List.foldl_cons, nearestStep_some]
    by_cases hlt : distTo M c y < b.d
    · rw [if_pos hlt]
      right
      rcases ih ⟨distTo M c y, y⟩ with ⟨hfold, hall⟩ | ⟨pre, x, post, hl, hfold, hx, hpre, hpost⟩
      · exact ⟨[], y, l, rfl, hfold, hlt, by simp, hall⟩
      · refine ⟨y :: pre, x, post, by simp [hl], hfold, lt_trans hx hlt, ?_, hpost⟩
        intro z hz
        rcases List.mem_cons.1 hz with rfl | hz
        · exact hx
        · exact hpre z hz
    · rw [if_neg hlt]
      have hle : b.d ≤ distTo M c y := not_lt.1 hlt
      rcases ih b with ⟨hfold, hall⟩ | ⟨pre, x, post, hl, hfold, hx, hpre, hpost⟩
      · left
        refine ⟨hfold, ?_⟩
        intro z hz
        rcases List.mem_cons.1 hz with rfl | hz
        · exact hle
        · exact hall z hz
      · right
        refine ⟨y :: pre, x, post, by simp [hl], hfold, hx, ?_, hpost⟩
        intro z hz
        rcases List.mem_cons.1 hz with rfl | hz
        · exact lt_of_lt_of_le hx hle
        · exact hpre z hz

/-- The scan over a non-empty list, as a split of the list around the chosen centre. -/
theorem nearest_split (M : Math α) (c : Coord α) (dcs : List (DC α)) (h : dcs ≠ []) :
    ∃ pre x post, dcs = pre ++ x :: post ∧
      nearest M dcs c = some ⟨distTo M c x, x⟩ ∧
      (∀ y ∈ pre, distTo M c x < distTo M c y) ∧
      (∀ y ∈ post, distTo M c x ≤ distTo M c y) := by
  cases dcs with
  | nil => exact absurd rfl h
  | cons x0 l =>
    unfold nearest
    rw [List.foldl_cons, nearestStep_none]
    rcases foldl_nearestStep_some M c l ⟨distTo M c x0, x0⟩ with
      ⟨hfold, hall⟩ | ⟨pre, x, post, hl, hfold, hx, hpre, hpost⟩
    · exact ⟨[], x0, l, rfl, hfold, by simp, hall⟩
    · refine ⟨x0 :: pre, x, post, by simp [hl], hfold, ?_, hpost⟩
      intro z hz
      rcases List.mem_cons.1 hz with rfl | hz
      · exact hx
      · exact hpre z hz

/-- With two centres the strictly closer one is chosen, in either order. -/
theorem nearest_pair (M : Math α) (c : Coord α) (a b : DC α)
    (hlt : distTo M c b < distTo M c a) :
    nearest M [a, b] c = some ⟨distTo M c b, b⟩ ∧
    nearest M [b, a] c = some ⟨distTo M c b, b⟩ := by
  constructor
  · simp [nearest, nearestStep_none, nearestStep_some, hlt]
  · simp [nearest, nearestStep_none, nearestStep_some, not_lt.2 (le_of_lt hlt)]

/-- C1: for every centroid and every non-empty centre list, the reduce inside `connections`
returns the first centre, in list order, whose haversine distance to the centroid is minimal:
no centre of the list is strictly closer than the chosen one and every centre listed before it
is strictly farther. With two centres at 100 km and 50 km the 50 km centre is chosen in
either order. -/
theorem nearest_first_minimal (M : Math α) (c : Coord α) (dcs : List (DC α)) (h : dcs ≠ []) :
    (∃ pre x post, dcs = pre ++ x :: post ∧
      nearest M dcs c = some ⟨haversine M c x.coord, x⟩ ∧
      (∀ y ∈ dcs, ¬ haversine M c y.coord < haversine M c x.coord) ∧
      (∀ y ∈ pre, haversine M c x.coord < haversine M c y.coord)) ∧
    (∀ a b : DC α, haversine M c a.coord = 100 → haversine M c b.coord = 50 →
      nearest M [a, b] c = some ⟨50, b⟩ ∧ nearest M [b, a] c = some ⟨50, b⟩) := by
  constructor
  · obtain ⟨pre, x, post, hl, hn, hpre, hpost⟩ := nearest_split M c dcs h
    refine ⟨pre, x, post, hl, hn, ?_, hpre⟩
    intro y hy
    rw [hl] at hy
    rcases List.mem_append.1 hy with hy | hy
    · exact not_lt.2 (le_of_lt (hpre y hy))
    · rcases List.mem_cons.1 hy with rfl | hy
      · exact lt_irrefl _
      · exact not_lt.2 (hpost y hy)
  · intro a b ha hb
    have hlt : distTo M c b < distTo M c a := by
      show haversine M c b.coord < haversine M c a.coord
      rw [ha, hb]; norm_num
    have := nearest_pair M c a b hlt
    simpa [distTo, hb] using this

/-! ## haversine on the real numbers -/

/-- Along the equator, from longitude 0 to longitude `x` in `[0, 180]`, the real-valued
haversine is the arc length `2 · 6371 · (x·π/180)/2`. -/
theorem haversine_equator (x : ℝ) (h0 : 0 ≤ x) (h180 : x ≤ 180) :
    haversine Math.real (0, 0) (x, 0) = 2 * 6371 * (x * Real.pi / 180 / 2) := by
  have hpi : 0 < Real.pi := Real.pi_pos
  have hθ0 : 0 ≤ x * Real.pi / 180 / 2 := by positivity
  have hθ1 : x * Real.pi / 180 / 2 ≤ Real.pi / 2 := by
    have : x * Real.pi ≤ 180 * Real.pi := mul_le_mul_of_nonneg_right h180 hpi.le
    linarith
  have hsin : 0 ≤ Real.sin (x * Real.pi / 180 / 2) :=
    Real.sin_nonneg_of_nonneg_of_le_pi hθ0 (by linarith)
  simp only [haversine, toRad, Math.real, sub_zero, zero_mul, zero_div, Real.sin_zero,
    Real.cos_zero, mul_one, one_mul, ne_eq, OfNat.ofNat_ne_zero, not_false_eq_true, zero_pow,
    zero_add]
  rw [Real.sqrt_sq hsin, Real.arcsin_sin (by linarith) hθ1]

/-- Witness of C1 on the real numbers: from the centroid (0,0), centres on the equator at
100 km and at 50 km; the 50 km centre is chosen in either order. -/
theorem nearest_first_minimal_witness :
    ([DC.mk "A" "X" ((18000 / (6371 * Real.pi), 0) : Coord ℝ)] ≠ []) ∧
    haversine Math.real (0, 0) (18000 / (6371 * Real.pi), 0) = 100 ∧
    haversine Math.real (0, 0) (9000 / (6371 * Real.pi), 0) = 50 ∧
    nearest Math.real
        [DC.mk "A" "X" (18000 / (6371 * Real.pi), 0), DC.mk "B" "Y" (9000 / (6371 * Real.pi), 0)]
        (0, 0)
      = some ⟨50, DC.mk "B" "Y" (9000 / (6371 * Real.pi), 0)⟩ ∧
    nearest Math.real
        [DC.mk "B" "Y" (9000 / (6371 * Real.pi), 0), DC.mk "A" "X" (18000 / (6371 * Real.pi), 0)]
        (0, 0)
      = some ⟨50, DC.mk "B" "Y" (9000 / (6371 * Real.pi), 0)⟩ := by
  have hpi : 0 < Real.pi := Real.pi_pos
  have hpi3 : 3 < Real.pi := Real.pi_gt_three
  have hle : ∀ k : ℝ, 0 ≤ k → k ≤ 18000 → k / (6371 * Real.pi) ≤ 180 := by
    intro k _ hk
    rw [div_le_iff₀ (by positivity)]
    nlinarith
  have ha : haversine Math.real (0, 0) (18000 / (6371 * Real.pi), 0) = 100 := by
    rw [haversine_equator _ (by positivity) (hle _ (by norm_num) (by norm_num))]
    field_simp
    ring
  have hb : haversine Math.real (0, 0) (9000 / (6371 * Real.pi), 0) = 50 := by
    rw [haversine_equator _ (by positivity) (hle _ (by norm_num) (by norm_num))]
    field_simp
    ring
  have hne : [DC.mk "A" "X" ((18000 / (6371 * Real.pi), 0) : Coord ℝ)] ≠ [] :=
    List.cons_ne_nil _ _
  exact ⟨hne, ha, hb,
    (nearest_first_minimal Math.real (0, 0) _ hne).2
      (DC.mk "A" "X" (18000 / (6371 * Real.pi), 0)) (DC.mk "B" "Y" (9000 / (6371 * Real.pi), 0))
      ha hb⟩

/-- The loop of `connections` pushes, entry by entry, the connector of the entry's nearest
centre when there is one. -/
theorem connections_eq_filterMap (M : Math α) (dcs : List (DC α))
    (cs : List (String × Coord α)) :
    connections M dcs cs
      = cs.filterMap (fun e =>
          (nearest M dcs e.2).map (fun n => Connector.mk e.2 n.dc.coord n.dc e.1)) := by
  unfold connections
  suffices hgen : ∀ acc : List (Connector α),
      cs.foldl
        (fun lines e =>
          match nearest M dcs e.2 with
          | some n => lines ++ [Connector.mk (e.2.1, e.2.2) n.dc.coord n.dc e.1]
          | none => lines) acc
      = acc ++ cs.filterMap (fun e =>
          (nearest M dcs e.2).map (fun n => Connector.mk e.2 n.dc.coord n.dc e.1)) by
    simpa using hgen []
  induction cs with
  | nil => intro acc; simp
  | cons e cs ih =>
    intro acc
    rw [List.foldl_cons, ih]
    cases hn : nearest M dcs e.2 with
    | none => simp [List.filterMap_cons, hn]
    | some n => simp [List.filterMap_cons, hn]

/-- The scan over a non-empty list returns a member of the list. -/
theorem nearest_mem (M : Math α) (c : Coord α) (dcs : List (DC α)) (h : dcs ≠ []) :
    ∃ n, nearest M dcs c = some n ∧ n.dc ∈ dcs := by
  obtain ⟨pre, x, post, hl, hn, -, -⟩ := nearest_split M c dcs h
  exact ⟨_, hn, by simp [hl]⟩

/-- Connectors that carry their entries' names, entry by entry, list the same names. -/
theorem map_country_of_forall₂ {β : Type} (cs : List (String × Coord β)) (ks : List (Connector β))
    (hks : List.Forall₂ (fun e k => k.country = e.1) cs ks) :
    ks.map Connector.country = cs.map Prod.fst := by
  induction hks with
  | nil => rfl
  | cons hek _ ih => simp [hek, ih]

/-- C2: with a non-empty centre list the resolver outputs exactly one connector per centroid
entry, in the entries' order: `country` is the entry's name, `from` the entry's centroid,
`dc` the centre the scan chose, a member of the centre list, and `to` that centre's `coord`.
The output has as many connectors as there are entries, and when the entries' names are
distinct no country has two connectors. -/
theorem connections_one_per_entry (M : Math α) (dcs : List (DC α))
    (cs : List (String × Coord α)) (h : dcs ≠ []) :
    List.Forall₂
      (fun e k => k.country = e.1 ∧ k.«from» = e.2 ∧ k.dc ∈ dcs ∧ k.«to» = k.dc.coord ∧
        (nearest M dcs e.2).map Best.dc = some k.dc)
      cs (connections M dcs cs) ∧
    (connections M dcs cs).length = cs.length ∧
    ((cs.map Prod.fst).Nodup → ((connections M dcs cs).map Connector.country).Nodup) := by
  have hrel : List.Forall₂
      (fun e k => k.country = e.1 ∧ k.«from» = e.2 ∧ k.dc ∈ dcs ∧ k.«to» = k.dc.coord ∧
        (nearest M dcs e.2).map Best.dc = some k.dc)
      cs (connections M dcs cs) := by
    rw [connections_eq_filterMap]
    induction cs with
    | nil => simp
    | cons e cs ih =>
      obtain ⟨n, hn, hmem⟩ := nearest_mem M e.2 dcs h
      rw [List.filterMap_cons, hn]
      exact List.Forall₂.cons ⟨rfl, rfl, hmem, rfl, by simp [hn]⟩ ih
  have hcountry : (connections M dcs cs).map Connector.country = cs.map Prod.fst :=
    map_country_of_forall₂ cs _ (hrel.imp (fun _ _ hek => hek.1))
  refine ⟨hrel, hrel.length_eq.symm, ?_⟩
  intro hnd
  rw [hcountry]
  exact hnd

/-- Witness of C2: one centre, two centroid entries with distinct names. -/
theorem connections_one_per_entry_witness :
    ([DC.mk "Tokyo" "Japan" ((139.6917, 35.6895) : Coord ℝ)] ≠ []) ∧
    (connections Math.real [DC.mk "Tokyo" "Japan" (139.6917, 35.6895)]
      [("Japan", (138, 36)), ("China", (104, 35))]).length = 2 ∧
    (connections Math.real [DC.mk "Tokyo" "Japan" (139.6917, 35.6895)]
      [("Japan", (138, 36)), ("China", (104, 35))]).map Connector.country = ["Japan", "China"] := by
  have h := connections_one_per_entry Math.real [DC.mk "Tokyo" "Japan" (139.6917, 35.6895)]
    [("Japan", (138, 36)), ("China", (104, 35))] (List.cons_ne_nil _ _)
  refine ⟨List.cons_ne_nil _ _, h.2.1, ?_⟩
  exact map_country_of_forall₂ _ _ (h.1.imp (fun _ _ hek => hek.1))

/-- C3: with an empty centre list the resolver returns the empty list of connectors for every
centroid mapping: no connector is produced, in particular none with a null destination. -/
theorem connections_no_centres (M : Math α) (cs : List (String × Coord α)) :
    connections M [] cs = [] := by
  rw [connections_eq_filterMap]
  simp [nearest]

/-- C4: for the single entry "TestCountry" → (0,0) and the centres with `coord` [10,0] and
[1,0], in this order, the resolver produces exactly one connector, to the second centre,
because on the real numbers haversine([0,0],[1,0]) < haversine([0,0],[10,0]). -/
theorem connections_testCountry (n1 c1 n2 c2 : String) :
    connections Math.real [DC.mk n1 c1 (10, 0), DC.mk n2 c2 (1, 0)] [("TestCountry", (0, 0))]
      = [Connector.mk (0, 0) (1, 0) (DC.mk n2 c2 (1, 0)) "TestCountry"] ∧
    haversine Math.real (0, 0) (1, 0) < haversine Math.real (0, 0) (10, 0) := by
  have hlt : haversine Math.real (0, 0) (1, 0) < haversine Math.real (0, 0) (10, 0) := by
    rw [haversine_equator 1 (by norm_num) (by norm_num),
      haversine_equator 10 (by norm_num) (by norm_num)]
    have hpi : 0 < Real.pi := Real.pi_pos
    linarith
  refine ⟨?_, hlt⟩
  have hp := (nearest_pair Math.real (0, 0) (DC.mk n1 c1 (10, 0)) (DC.mk n2 c2 (1, 0)) hlt).1
  rw [connections_eq_filterMap]
  simp only [List.filterMap_cons, List.filterMap_nil, hp, Option.map_some']

/-- Whatever `Math` is, `haversine(p, p)` is 0 as soon as `sin`, `sqrt` and `asin` send 0
to 0. -/
theorem haversine_self_of_zero (M : Math α) (hsin : M.sin 0 = 0) (hsqrt : M.sqrt 0 = 0)
    (hasin : M.asin 0 = 0) (p : Coord α) : haversine M p p = 0 := by
  simp [haversine, toRad, hsin, hsqrt, hasin]

/-- C5: for every coordinate pair `p = [lon, lat]`, `haversine(p, p) = 0`, where haversine is
`2 · 6371 · asin(√a)`, `a = sin²(Δlat/2) + cos(lat1)·cos(lat2)·sin²(Δlon/2)`, on degrees
converted to radians (real-number functions). -/
theorem haversine_self (p : Coord ℝ) : haversine Math.real p p = 0 :=
  haversine_self_of_zero Math.real Real.sin_zero Real.sqrt_zero Real.arcsin_zero p

/-! ## Centroid resolver: properties -/

/-- Without a 4-number `bbox`, `geoCentroid` is decided by the traversal. -/
theorem geoCentroid_of_noBBox4 (bbox : Option (List α)) (hb : NoBBox4 bbox) (g : Geometry α) :
    geoCentroid ⟨bbox, g⟩
      = match traverse g with
        | some s =>
          if s.count = 0 then some (0, 0) else some (s.sumX / s.count, s.sumY / s.count)
        | none => none := by
  unfold geoCentroid
  split
  · next minX minY maxX maxY heq => exact absurd rfl (hb _ heq)
  · rfl

/-- Running `add` over a ring adds the ring's longitudes, latitudes and length. -/
theorem foldl_add (ring : List (Coord α)) (s : Sums α) :
    ring.foldl add s
      = ⟨s.sumX + (ring.map Prod.fst).sum, s.sumY + (ring.map Prod.snd).sum,
          s.count + (ring.length : α)⟩ := by
  induction ring generalizing s with
  | nil => simp
  | cons pt ring ih =>
    rw [List.foldl_cons, ih]
    simp only [add, List.map_cons, List.sum_cons, List.length_cons, Nat.cast_add, Nat.cast_one,
      Sums.mk.injEq]
    refine ⟨by ring, by ring, by ring⟩

/-- The traversal of a `MultiPolygon` all of whose polygons have a first ring is the run of
`add` over the concatenation of these first rings. -/
theorem foldlM_first_rings (polys : List (List (List (Coord α))))
    (hfirst : ∀ p ∈ polys, p ≠ []) (s : Sums α) :
    polys.foldlM
      (fun s poly =>
        match poly.head? with
        | some ring => some (ring.foldl add s)
        | none => none) s
      = some ((polys.flatMap (fun p => p.headD [])).foldl add s) := by
  induction polys generalizing s with
  | nil => rfl
  | cons p polys ih =>
    have hp : p ≠ [] := hfirst p (List.mem_cons_self _ _)
    have htl : ∀ q ∈ polys, q ≠ [] := fun q hq => hfirst q (List.mem_cons_of_mem _ hq)
    cases p with
    | nil => exact absurd rfl hp
    | cons ring holes =>
      rw [List.foldlM_cons, List.flatMap_cons, List.foldl_append]
      simpa using ih htl (ring.foldl add s)

/-- Without a 4-number `bbox`, a `Polygon` with a non-empty first ring has the mean of that
ring's points as centroid. -/
theorem polygon_mean (bbox : Option (List α)) (hb : NoBBox4 bbox)
    (ring : List (Coord α)) (hr : ring ≠ []) (holes : List (List (Coord α))) :
    geoCentroid ⟨bbox, .Polygon (ring :: holes)⟩
      = some ((ring.map Prod.fst).sum / (ring.length : α),
          (ring.map Prod.snd).sum / (ring.length : α)) := by
  have hlen : (ring.length : α) ≠ 0 :=
    Nat.cast_ne_zero.2 (fun h0 => hr (List.length_eq_zero.1 h0))
  rw [geoCentroid_of_noBBox4 bbox hb]
  simp only [traverse, List.head?_cons, foldl_add, zero_add]
  rw [if_neg hlen]

/-- The function `geoCentroid` returns a coordinate as soon as a `Polygon` has a first ring
and every polygon of a `MultiPolygon` has a first ring. -/
theorem geoCentroid_returns (geo : Geo α)
    (hg : (∃ ring holes, geo.geometry = .Polygon (ring :: holes)) ∨
      (∃ polys, geo.geometry = .MultiPolygon polys ∧ ∀ p ∈ polys, p ≠ []) ∨
      geo.geometry = .other) :
    ∃ c, geoCentroid geo = some c := by
  have htrav : ∃ s, traverse geo.geometry = some s := by
    rcases hg with ⟨ring, holes, h⟩ | ⟨polys, h, hfirst⟩ | h
    · exact ⟨_, by rw [h]; rfl⟩
    · exact ⟨_, by rw [h]; exact foldlM_first_rings polys hfirst _⟩
    · exact ⟨_, by rw [h]; rfl⟩
  obtain ⟨s, hs⟩ := htrav
  unfold geoCentroid
  split
  · exact ⟨_, rfl⟩
  · rw [hs]
    by_cases hc : s.count = 0
    · exact ⟨(0, 0), by simp only [hc, if_true]⟩
    · exact ⟨(s.sumX / s.count, s.sumY / s.count), by simp only [hc, if_false]⟩

/-- C6: for every geometry record with a bounding box of exactly four numbers
`[minX, minY, maxX, maxY]`, `geoCentroid` returns exactly
`[(minX+maxX)/2, (minY+maxY)/2]`, whatever its type and coordinates are. -/
theorem geoCentroid_bbox (minX minY maxX maxY : α) (g : Geometry α) :
    geoCentroid ⟨some [minX, minY, maxX, maxY], g⟩
      = some ((minX + maxX) / 2, (minY + maxY) / 2) := rfl

/-- C7: for a `Polygon` with no 4-number bounding box and a non-empty first ring,
`geoCentroid` returns the unweighted mean of the first ring's points (sum of longitudes over
the number of points, sum of latitudes over the number of points); the rings after the first
do not affect the result. For the ring [(0,0),(2,0),(2,2),(0,2)] the result is (1,1). -/
theorem geoCentroid_polygon (bbox : Option (List α)) (hb : NoBBox4 bbox)
    (ring : List (Coord α)) (hr : ring ≠ []) (holes : List (List (Coord α))) :
    geoCentroid ⟨bbox, .Polygon (ring :: holes)⟩
      = some ((ring.map Prod.fst).sum / (ring.length : α),
          (ring.map Prod.snd).sum / (ring.length : α)) ∧
    geoCentroid ⟨bbox, .Polygon ([(0, 0), (2, 0), (2, 2), (0, 2)] :: holes)⟩ = some (1, 1) := by
  refine ⟨polygon_mean bbox hb ring hr holes, ?_⟩
  rw [polygon_mean bbox hb _ (List.cons_ne_nil _ _) holes]
  norm_num

/-- An absent `bbox` fails the test for a 4-number box. -/
theorem noBBox4_none {β : Type} : NoBBox4 (none : Option (List β)) := by
  intro l h
  cases h

/-- Witness of C7: a triangle-like first ring and one hole, no bounding box. -/
theorem geoCentroid_polygon_witness :
    NoBBox4 (none : Option (List ℚ)) ∧ ([(0, 0), (4, 0), (4, 2)] : List (Coord ℚ)) ≠ [] ∧
    geoCentroid (⟨none, .Polygon [[(0, 0), (4, 0), (4, 2)], [(1, 1)]]⟩ : Geo ℚ)
      = some (8 / 3, 2 / 3) := by
  refine ⟨noBBox4_none, List.cons_ne_nil _ _, ?_⟩
  rw [(geoCentroid_polygon none noBBox4_none [(0, 0), (4, 0), (4, 2)] (List.cons_ne_nil _ _)
    [[(1, 1)]]).1]
  norm_num

/-- C8: for a `MultiPolygon` with no 4-number bounding box in which every constituent polygon
has a first ring, `geoCentroid` returns the same value as for a single `Polygon` whose first
ring is the concatenation of the first rings of all constituent polygons. Every point has the
same weight: for the polygons with first rings [(0,0)] and [(6,0),(6,0)] the result is (4,0),
not the mean (3,0) of the per-polygon results (0,0) and (6,0). -/
theorem geoCentroid_multiPolygon (bbox : Option (List α)) (hb : NoBBox4 bbox)
    (polys : List (List (List (Coord α)))) (hfirst : ∀ p ∈ polys, p ≠ []) :
    geoCentroid ⟨bbox, .MultiPolygon polys⟩
      = geoCentroid ⟨bbox, .Polygon [polys.flatMap (fun p => p.headD [])]⟩ ∧
    (geoCentroid ⟨bbox, .MultiPolygon [[[(0, 0)]], [[(6, 0), (6, 0)]]]⟩ = some (4, 0) ∧
      geoCentroid ⟨bbox, .Polygon [[(0, 0)]]⟩ = some (0, 0) ∧
      geoCentroid ⟨bbox, .Polygon [[(6, 0), (6, 0)]]⟩ = some (6, 0) ∧
      ((4 : α), (0 : α)) ≠ ((0 + 6) / 2, (0 + 0) / 2)) := by
  have hpool : ∀ ps : List (List (List (Coord α))), (∀ p ∈ ps, p ≠ []) →
      geoCentroid ⟨bbox, .MultiPolygon ps⟩
        = geoCentroid ⟨bbox, .Polygon [ps.flatMap (fun p => p.headD [])]⟩ := by
    intro ps hps
    rw [geoCentroid_of_noBBox4 bbox hb, geoCentroid_of_noBBox4 bbox hb]
    simp only [traverse, foldlM_first_rings ps hps, List.head?_cons]
  have hpoly : ∀ r : List (Coord α), r ≠ [] →
      geoCentroid ⟨bbox, .Polygon [r]⟩
        = some ((r.map Prod.fst).sum / (r.length : α),
            (r.map Prod.snd).sum / (r.length : α)) :=
    fun r hne => polygon_mean bbox hb r hne []
  refine ⟨hpool polys hfirst, ?_, ?_, ?_, ?_⟩
  · rw [hpool _ (by simp), hpoly _ (by simp)]
    norm_num
  · rw [hpoly _ (by simp)]
    norm_num
  · rw [hpoly _ (by simp)]
    norm_num
  · norm_num

/-- Witness of C8: two polygons, the first with a hole, and a bounding box of two numbers. -/
theorem geoCentroid_multiPolygon_witness :
    NoBBox4 (some [(1 : ℚ), 2]) ∧
    (∀ p ∈ ([[[(0, 0), (2, 0)], [(9, 9)]], [[(2, 2), (0, 2)]]] : List (List (List (Coord ℚ)))),
      p ≠ []) ∧
    geoCentroid (⟨some [1, 2], .MultiPolygon [[[(0, 0), (2, 0)], [(9, 9)]], [[(2, 2), (0, 2)]]]⟩ :
        Geo ℚ)
      = geoCentroid (⟨some [1, 2], .Polygon [[(0, 0), (2, 0), (2, 2), (0, 2)]]⟩ : Geo ℚ) := by
  have hb : NoBBox4 (some [(1 : ℚ), 2]) := by
    intro l h
    cases h
    decide
  have hfirst : ∀ p ∈ ([[[(0, 0), (2, 0)], [(9, 9)]], [[(2, 2), (0, 2)]]] :
      List (List (List (Coord ℚ)))), p ≠ [] := by
    intro p hp
    simp only [List.mem_cons, List.mem_singleton, List.not_mem_nil, or_false] at hp
    rcases hp with rfl | rfl <;> exact List.cons_ne_nil _ _
  exact ⟨hb, hfirst, (geoCentroid_multiPolygon _ hb _ hfirst).1⟩

/-- C9: with no 4-number bounding box, a geometry from which the traversal collects no point
(a `Polygon` whose first ring is empty, a `MultiPolygon` with no polygons or whose polygons
all have an empty first ring, a record of any other type) has centroid `[0, 0]`. -/
theorem geoCentroid_no_points (bbox : Option (List α)) (hb : NoBBox4 bbox) (g : Geometry α)
    (hg : (∃ holes, g = .Polygon ([] :: holes)) ∨
      (∃ polys, g = .MultiPolygon polys ∧ ∀ p ∈ polys, p.head? = some []) ∨
      g = .other) :
    geoCentroid ⟨bbox, g⟩ = some (0, 0) := by
  rw [geoCentroid_of_noBBox4 bbox hb]
  rcases hg with ⟨holes, rfl⟩ | ⟨polys, rfl, hall⟩ | rfl
  · simp [traverse]
  · have hfirst : ∀ p ∈ polys, p ≠ [] := by
      intro p hp hnil
      have := hall p hp
      rw [hnil] at this
      simp at this
    have hflat : polys.flatMap (fun p => p.headD []) = [] := by
      rw [List.flatMap_eq_nil_iff]
      intro p hp
      have := hall p hp
      cases p with
      | nil => simp at this
      | cons r rs => simpa using this
    simp only [traverse, foldlM_first_rings polys hfirst, hflat, List.foldl_nil, if_true]
  · simp [traverse]

/-- Witness of C9: a `MultiPolygon` whose two polygons have an empty first ring. -/
theorem geoCentroid_no_points_witness :
    NoBBox4 (none : Option (List ℚ)) ∧
    (∀ p ∈ ([[[], [(1, 1)]], [[]]] : List (List (List (Coord ℚ)))), p.head? = some []) ∧
    geoCentroid (⟨none, .MultiPolygon [[[], [(1, 1)]], [[]]]⟩ : Geo ℚ) = some (0, 0) := by
  have hall : ∀ p ∈ ([[[], [(1, 1)]], [[]]] : List (List (List (Coord ℚ)))),
      p.head? = some [] := by
    intro p hp
    simp only [List.mem_cons, List.mem_singleton, List.not_mem_nil, or_false] at hp
    rcases hp with rfl | rfl <;> rfl
  exact ⟨noBBox4_none, hall,
    geoCentroid_no_points none noBBox4_none _ (Or.inr (Or.inl ⟨_, rfl, hall⟩))⟩

/-- C10 (the code at the failing inputs): for a `Polygon` whose `coordinates` hold no ring,
and for a `MultiPolygon` that contains a polygon with no ring, with no bounding box,
`geoCentroid` throws instead of returning a coordinate. -/
theorem geoCentroid_throws :
    geoCentroid (⟨none, .Polygon []⟩ : Geo α) = none ∧
    geoCentroid (⟨none, .MultiPolygon [[]]⟩ : Geo α) = none ∧
    geoCentroid (⟨none, .MultiPolygon [[[(1, 2)]], []]⟩ : Geo α) = none := by
  refine ⟨rfl, rfl, rfl⟩

/-! ## Heatmap colorizer: properties -/

/-- The normalised position `t` of `yellowScale`, as a function of the percentage. -/
theorem channels_eq [FloorRing α] (pct : α) :
    channels pct
      = (lerp 255 230 (min 1 (max 0 ((pct - 1) / 24))),
          lerp 247 207 (min 1 (max 0 ((pct - 1) / 24))),
          lerp 161 0 (min 1 (max 0 ((pct - 1) / 24)))) := by
  simp only [channels]
  norm_num

/-- For a positive number `yellowScale` is the template string of the channels. -/
theorem yellowScale_pos [FloorRing α] (p : α) (hp : 0 < p) :
    yellowScale (.num p) = rgb (channels p) := by
  have h : ¬ (p = 0 ∨ p ≤ 0) := by
    rintro (h | h)
    · exact (ne_of_gt hp) h
    · exact (not_le.2 hp) h
  simp only [yellowScale, if_neg h]

/-- The position `t` does not decrease when the percentage grows. -/
theorem t_mono (p1 p2 : α) (h : p1 ≤ p2) :
    min 1 (max 0 ((p1 - 1) / 24)) ≤ min (1 : α) (max 0 ((p2 - 1) / 24)) := by
  apply min_le_min le_rfl
  apply max_le_max le_rfl
  apply div_le_div_of_nonneg_right _ (by norm_num)
  linarith

/-- A channel whose dark end is not above its light end does not increase with `t`. -/
theorem lerp_antitone [FloorRing α] (a b t1 t2 : α) (hab : b ≤ a) (ht : t1 ≤ t2) :
    lerp a b t2 ≤ lerp a b t1 := by
  unfold lerp Math.round
  apply Int.floor_le_floor
  have : (b - a) * t2 ≤ (b - a) * t1 := mul_le_mul_of_nonpos_left ht (sub_nonpos.2 hab)
  linarith

/-- The three channels do not increase when the percentage grows. -/
theorem channels_antitone [FloorRing α] (p1 p2 : α) (h : p1 ≤ p2) :
    (channels p2).1 ≤ (channels p1).1 ∧ (channels p2).2.1 ≤ (channels p1).2.1 ∧
    (channels p2).2.2 ≤ (channels p1).2.2 := by
  rw [channels_eq, channels_eq]
  exact ⟨lerp_antitone _ _ _ _ (by norm_num) (t_mono p1 p2 h),
    lerp_antitone _ _ _ _ (by norm_num) (t_mono p1 p2 h),
    lerp_antitone _ _ _ _ (by norm_num) (t_mono p1 p2 h)⟩

/-- At or below 1 the channels are those of the light end. -/
theorem channels_le_one [FloorRing α] (p : α) (hp : p ≤ 1) : channels p = (255, 247, 161) := by
  have ht : min (1 : α) (max 0 ((p - 1) / 24)) = 0 := by
    have h0 : (p - 1) / 24 ≤ 0 := div_nonpos_of_nonpos_of_nonneg (by linarith) (by norm_num)
    rw [max_eq_left h0]
    exact min_eq_right zero_le_one
  rw [channels_eq, ht]
  simp only [lerp, Math.round, mul_zero, add_zero, Prod.mk.injEq]
  refine ⟨?_, ?_, ?_⟩ <;> rw [Int.floor_eq_iff] <;> norm_num

/-- At or above 25 the channels are those of the dark end. -/
theorem channels_ge_25 [FloorRing α] (p : α) (hp : 25 ≤ p) : channels p = (230, 207, 0) := by
  have ht : min (1 : α) (max 0 ((p - 1) / 24)) = 1 := by
    have h1 : (1 : α) ≤ (p - 1) / 24 := by
      rw [le_div_iff₀ (by norm_num)]
      linarith
    rw [max_eq_right (le_trans zero_le_one h1)]
    exact min_eq_left h1
  rw [channels_eq, ht]
  simp only [lerp, Math.round, mul_one, Prod.mk.injEq]
  refine ⟨?_, ?_, ?_⟩ <;> rw [Int.floor_eq_iff] <;> norm_num

/-- C11: for a percentage that is `null`, `undefined`, zero or negative, `yellowScale` returns
the fixed no-data colour "#fffbe6". -/
theorem yellowScale_noData [FloorRing α] :
    yellowScale (.null : Pct α) = "#fffbe6" ∧
    yellowScale (.undefined : Pct α) = "#fffbe6" ∧
    yellowScale (.num (0 : α)) = "#fffbe6" ∧
    ∀ p : α, p ≤ 0 → yellowScale (.num p) = "#fffbe6" := by
  refine ⟨rfl, rfl, ?_, ?_⟩
  · simp [yellowScale]
  · intro p hp
    simp [yellowScale, hp]

/-- C12 as stated fails: from 1 % to 25 % the colour goes from "rgb(255, 247, 161)" to
"rgb(230, 207, 0)", and none of the three channels of the second is greater than or equal
to the one of the first. -/
theorem yellowScale_channels_not_monotone :
    (1 : ℚ) ≤ 1 ∧ (1 : ℚ) < 25 ∧ (25 : ℚ) ≤ 25 ∧
    yellowScale (.num (1 : ℚ)) = "rgb(255, 247, 161)" ∧
    yellowScale (.num (25 : ℚ)) = "rgb(230, 207, 0)" ∧
    channels (1 : ℚ) = (255, 247, 161) ∧ channels (25 : ℚ) = (230, 207, 0) ∧
    ¬ ((channels (1 : ℚ)).1 ≤ (channels (25 : ℚ)).1) ∧
    ¬ ((channels (1 : ℚ)).2.1 ≤ (channels (25 : ℚ)).2.1) ∧
    ¬ ((channels (1 : ℚ)).2.2 ≤ (channels (25 : ℚ)).2.2) := by
  have h1 : channels (1 : ℚ) = (255, 247, 161) := channels_le_one 1 le_rfl
  have h25 : channels (25 : ℚ) = (230, 207, 0) := channels_ge_25 25 le_rfl
  refine ⟨le_rfl, by norm_num, le_rfl, ?_, ?_, h1, h25, ?_, ?_, ?_⟩
  · rw [yellowScale_pos 1 (by norm_num), h1]
    decide
  · rw [yellowScale_pos 25 (by norm_num), h25]
    decide
  · rw [h1, h25]
    decide
  · rw [h1, h25]
    decide
  · rw [h1, h25]
    decide

/-- C12, amended: for all percentages `p1 < p2` within [1, 25], both colours are template
strings of their channels and each of the three RGB channels of `yellowScale(p2)` is less
than or equal to the corresponding channel of `yellowScale(p1)`. -/
theorem yellowScale_channels_antitone_in_range [FloorRing α] (p1 p2 : α)
    (h1 : 1 ≤ p1) (h12 : p1 < p2) (_h2 : p2 ≤ 25) :
    yellowScale (.num p1) = rgb (channels p1) ∧
    yellowScale (.num p2) = rgb (channels p2) ∧
    (channels p2).1 ≤ (channels p1).1 ∧ (channels p2).2.1 ≤ (channels p1).2.1 ∧
    (channels p2).2.2 ≤ (channels p1).2.2 := by
  have hp1 : 0 < p1 := lt_of_lt_of_le zero_lt_one h1
  exact ⟨yellowScale_pos p1 hp1, yellowScale_pos p2 (lt_trans hp1 h12),
    channels_antitone p1 p2 (le_of_lt h12)⟩

/-- Witness of the amended C12 at 2 % and 13 %. -/
theorem yellowScale_channels_antitone_in_range_witness :
    (1 : ℚ) ≤ 2 ∧ (2 : ℚ) < 13 ∧ (13 : ℚ) ≤ 25 ∧
    (channels (13 : ℚ)).1 ≤ (channels (2 : ℚ)).1 ∧
    (channels (13 : ℚ)).2.1 ≤ (channels (2 : ℚ)).2.1 ∧
    (channels (13 : ℚ)).2.2 ≤ (channels (2 : ℚ)).2.2 :=
  ⟨by norm_num, by norm_num, by norm_num,
    (yellowScale_channels_antitone_in_range (2 : ℚ) 13 (by norm_num) (by norm_num)
      (by norm_num)).2.2⟩

/-- C13: for every percentage `p ≥ 25`, `yellowScale(p)` is the darkest colour
"rgb(230, 207, 0)", the value of `yellowScale(25)`; in particular
`yellowScale(25) = yellowScale(100) = yellowScale(1000)`. -/
theorem yellowScale_clamp [FloorRing α] :
    (∀ p : α, 25 ≤ p → yellowScale (.num p) = yellowScale (.num (25 : α))) ∧
    yellowScale (.num (25 : α)) = "rgb(230, 207, 0)" ∧
    yellowScale (.num (100 : α)) = yellowScale (.num (25 : α)) ∧
    yellowScale (.num (1000 : α)) = yellowScale (.num (25 : α)) := by
  have hdark : ∀ p : α, 25 ≤ p → yellowScale (.num p) = "rgb(230, 207, 0)" := by
    intro p hp
    rw [yellowScale_pos p (lt_of_lt_of_le (by norm_num) hp), channels_ge_25 p hp]
    decide
  refine ⟨?_, hdark 25 le_rfl, ?_, ?_⟩
  · intro p hp
    rw [hdark p hp, hdark 25 le_rfl]
  · rw [hdark 100 (by norm_num), hdark 25 le_rfl]
  · rw [hdark 1000 (by norm_num), hdark 25 le_rfl]

/-- C14: for every percentage `p > 0`, with `t = min(1, max(0, (p − 1)/24))`,
`yellowScale(p)` is the string "rgb(r, g, b)" where `r`, `g`, `b` are `255 − 25·t`,
`247 − 40·t` and `161 − 161·t`, each rounded on its own to the nearest integer, a half
rounding up (`n ≤ x + 1/2 < n + 1`); every `p` with `0 < p ≤ 1` gives the lightest colour
"rgb(255, 247, 161)". -/
theorem yellowScale_formula [FloorRing α] (p t : α) (hp : 0 < p)
    (ht : t = min 1 (max 0 ((p - 1) / 24))) :
    (∃ r g b : ℤ,
      yellowScale (.num p)
        = "rgb(" ++ toString r ++ ", " ++ toString g ++ ", " ++ toString b ++ ")" ∧
      ((r : α) ≤ 255 - 25 * t + 1 / 2 ∧ 255 - 25 * t + 1 / 2 < (r : α) + 1) ∧
      ((g : α) ≤ 247 - 40 * t + 1 / 2 ∧ 247 - 40 * t + 1 / 2 < (g : α) + 1) ∧
      ((b : α) ≤ 161 - 161 * t + 1 / 2 ∧ 161 - 161 * t + 1 / 2 < (b : α) + 1)) ∧
    (p ≤ 1 → yellowScale (.num p) = "rgb(255, 247, 161)") := by
  constructor
  · refine ⟨(channels p).1, (channels p).2.1, (channels p).2.2, ?_, ?_, ?_, ?_⟩
    · rw [yellowScale_pos p hp]
      rfl
    · rw [channels_eq, ← ht]
      simp only [lerp, Math.round]
      have e : (255 : α) + (230 - 255) * t + 1 / 2 = 255 - 25 * t + 1 / 2 := by ring
      rw [e]
      exact ⟨Int.floor_le _, Int.lt_floor_add_one _⟩
    · rw [channels_eq, ← ht]
      simp only [lerp, Math.round]
      have e : (247 : α) + (207 - 247) * t + 1 / 2 = 247 - 40 * t + 1 / 2 := by ring
      rw [e]
      exact ⟨Int.floor_le _, Int.lt_floor_add_one _⟩
    · rw [channels_eq, ← ht]
      simp only [lerp, Math.round]
      have e : (161 : α) + (0 - 161) * t + 1 / 2 = 161 - 161 * t + 1 / 2 := by ring
      rw [e]
      exact ⟨Int.floor_le _, Int.lt_floor_add_one _⟩
  · intro h1
    rw [yellowScale_pos p hp, channels_le_one p h1]
    decide

/-- The channels at 13 %: `t = 1/2`, and the halves 242.5 and 80.5 round up. -/
theorem channels_13 : channels (13 : ℚ) = (243, 227, 81) := by
  have ht : min (1 : ℚ) (max 0 ((13 - 1) / 24)) = 1 / 2 := by norm_num
  rw [channels_eq, ht]
  simp only [lerp, Math.round, Prod.mk.injEq]
  refine ⟨?_, ?_, ?_⟩ <;> rw [Int.floor_eq_iff] <;> norm_num

/-- Witness of C14 at 13 %, where `t = 1/2`: the colour is "rgb(243, 227, 81)". -/
theorem yellowScale_formula_witness :
    (0 : ℚ) < 13 ∧ (1 / 2 : ℚ) = min 1 (max 0 ((13 - 1) / 24)) ∧
    yellowScale (.num (13 : ℚ)) = "rgb(243, 227, 81)" ∧
    ∃ r g b : ℤ,
      yellowScale (.num (13 : ℚ))
        = "rgb(" ++ toString r ++ ", " ++ toString g ++ ", " ++ toString b ++ ")" ∧
      ((r : ℚ) ≤ 255 - 25 * (1 / 2) + 1 / 2 ∧ 255 - 25 * (1 / 2) + 1 / 2 < (r : ℚ) + 1) ∧
      ((g : ℚ) ≤ 247 - 40 * (1 / 2) + 1 / 2 ∧ 247 - 40 * (1 / 2) + 1 / 2 < (g : ℚ) + 1) ∧
      ((b : ℚ) ≤ 161 - 161 * (1 / 2) + 1 / 2 ∧ 161 - 161 * (1 / 2) + 1 / 2 < (b : ℚ) + 1) := by
  refine ⟨by norm_num, by norm_num, ?_,
    (yellowScale_formula (13 : ℚ) (1 / 2) (by norm_num) (by norm_num)).1⟩
  rw [yellowScale_pos 13 (by norm_num), channels_13]
  decide

/-- C18: for all percentages `0 < p1 ≤ p2`, each of the three RGB channels of
`yellowScale(p2)` is less than or equal to the corresponding channel of `yellowScale(p1)`,
and the channels stay between those of (230, 207, 0) and those of (255, 247, 161). -/
theorem yellowScale_channels_antitone [FloorRing α] (p1 p2 : α) (h1 : 0 < p1) (h12 : p1 ≤ p2) :
    yellowScale (.num p1) = rgb (channels p1) ∧
    yellowScale (.num p2) = rgb (channels p2) ∧
    ((channels p2).1 ≤ (channels p1).1 ∧ (channels p2).2.1 ≤ (channels p1).2.1 ∧
      (channels p2).2.2 ≤ (channels p1).2.2) ∧
    ((channels p1).1 ≤ 255 ∧ (channels p1).2.1 ≤ 247 ∧ (channels p1).2.2 ≤ 161) ∧
    (230 ≤ (channels p2).1 ∧ 207 ≤ (channels p2).2.1 ∧ 0 ≤ (channels p2).2.2) := by
  refine ⟨yellowScale_pos p1 h1, yellowScale_pos p2 (lt_of_lt_of_le h1 h12),
    channels_antitone p1 p2 h12, ?_, ?_⟩
  · have h := channels_antitone (min p1 1) p1 (min_le_left _ _)
    rw [channels_le_one (min p1 1) (min_le_right _ _)] at h
    exact h
  · have h := channels_antitone p2 (max p2 25) (le_max_left _ _)
    rw [channels_ge_25 (max p2 25) (le_max_right _ _)] at h
    exact h

/-- Witness of C18 at 0.5 % and 40 %. -/
theorem yellowScale_channels_antitone_witness :
    (0 : ℚ) < 1 / 2 ∧ (1 / 2 : ℚ) ≤ 40 ∧
    (channels (40 : ℚ)).1 ≤ (channels (1 / 2 : ℚ)).1 ∧
    (channels (40 : ℚ)).2.1 ≤ (channels (1 / 2 : ℚ)).2.1 ∧
    (channels (40 : ℚ)).2.2 ≤ (channels (1 / 2 : ℚ)).2.2 :=
  ⟨by norm_num, by norm_num,
    (yellowScale_channels_antitone (1 / 2 : ℚ) 40 (by norm_num) (by norm_num)).2.2.1⟩

/-! ## Name normalizer: properties -/

/-- The two variants of `normalizeName` are the chains of their rule tables. -/
theorem normalizeName_eq_applyRules (name : String) :
    normalizeName name = ⟨applyRules rules name.data⟩ := by
  simp only [normalizeName, applyRules, rules, List.foldl_cons, List.foldl_nil, replace]

theorem normalizeNamePage_eq_applyRules (name : String) :
    normalizeNamePage name = ⟨applyRules rulesPage name.data⟩ := by
  simp only [normalizeNamePage, applyRules, rulesPage, List.foldl_cons, List.foldl_nil, replace]

/-- A pattern at the start of the text is replaced there. -/
theorem replaceFirst_at_start (s pat rep : List Char) (h : pat <+: s) :
    replaceFirst s pat rep = rep ++ s.drop pat.length := by
  have hb : pat.isPrefixOf s = true := List.isPrefixOf_iff_prefix.2 h
  cases s with
  | nil => simp only [replaceFirst, hb, if_true, List.drop_nil, List.append_nil]
  | cons c cs => simp only [replaceFirst, hb, if_true]

/-- A pattern that is not at the start of the text is searched in the tail. -/
theorem replaceFirst_cons_skip (c : Char) (cs pat rep : List Char)
    (h : ¬ pat <+: c :: cs) :
    replaceFirst (c :: cs) pat rep = c :: replaceFirst cs pat rep := by
  have hb : ¬ pat.isPrefixOf (c :: cs) = true := fun hb => h (List.isPrefixOf_iff_prefix.1 hb)
  simp only [replaceFirst, hb, if_false, Bool.false_eq_true]

/-- A text that does not contain the pattern is returned unchanged. -/
theorem replaceFirst_absent (s pat rep : List Char) (h : ¬ pat <:+: s) :
    replaceFirst s pat rep = s := by
  induction s with
  | nil =>
    have hb : ¬ pat.isPrefixOf [] = true :=
      fun hb => h (List.isPrefixOf_iff_prefix.1 hb).isInfix
    simp only [replaceFirst, hb, if_false, Bool.false_eq_true]
  | cons c cs ih =>
    rw [replaceFirst_cons_skip c cs pat rep (fun hp => h hp.isInfix),
      ih (fun hi => h (List.infix_cons hi))]

/-- A text that contains the pattern has one occurrence of it replaced. -/
theorem replaceFirst_present (s pat rep : List Char) (h : pat <:+: s) :
    ∃ pre post, s = pre ++ pat ++ post ∧ replaceFirst s pat rep = pre ++ rep ++ post := by
  induction s with
  | nil =>
    have hnil : pat = [] := List.infix_nil.1 h
    subst hnil
    exact ⟨[], [], rfl, by simp [replaceFirst]⟩
  | cons c cs ih =>
    by_cases hp : pat <+: c :: cs
    · obtain ⟨t, ht⟩ := hp
      refine ⟨[], t, by simpa using ht.symm, ?_⟩
      rw [replaceFirst_at_start _ _ _ ⟨t, ht⟩, ← ht]
      simp
    · have hi : pat <:+: cs := (List.infix_cons_iff.1 h).resolve_left hp
      obtain ⟨pre, post, hs, hr⟩ := ih hi
      refine ⟨c :: pre, post, by simp [hs], ?_⟩
      rw [replaceFirst_cons_skip c cs pat rep hp, hr]
      simp

/-- Replacing a pattern by itself changes nothing. -/
theorem replaceFirst_self (s pat : List Char) : replaceFirst s pat pat = s := by
  by_cases h : pat <:+: s
  · obtain ⟨pre, post, hs, hr⟩ := replaceFirst_present s pat pat h
    rw [hr, ← hs]
  · exact replaceFirst_absent s pat pat h

/-- The occurrence that is replaced is the first one: when the pattern does not occur in
`a` followed by the pattern without its last character, it is replaced right after `a`. -/
theorem replaceFirst_append (a pat rep rest : List Char) (hpat : pat ≠ [])
    (h : ¬ pat <:+: a ++ pat.dropLast) :
    replaceFirst (a ++ (pat ++ rest)) pat rep = a ++ (rep ++ rest) := by
  induction a with
  | nil =>
    rw [List.nil_append, replaceFirst_at_start _ _ _ (List.prefix_append pat rest)]
    simp
  | cons x a ih =>
    have hlen : pat.dropLast.length + 1 = pat.length := by
      rw [List.length_dropLast]
      have : 0 < pat.length := List.length_pos.2 hpat
      omega
    have hnp : ¬ pat <+: x :: (a ++ (pat ++ rest)) := by
      intro hp
      have hq : (x :: a) ++ pat.dropLast <+: x :: (a ++ (pat ++ rest)) := by
        obtain ⟨u, hu⟩ : pat.dropLast <+: pat := List.dropLast_prefix pat
        refine ⟨u ++ rest, ?_⟩
        simp only [List.cons_append, List.append_assoc, List.cons.injEq, true_and,
          List.append_cancel_left_eq]
        rw [← List.append_assoc, hu]
      have hle : pat.length ≤ ((x :: a) ++ pat.dropLast).length := by
        simp only [List.cons_append, List.length_cons, List.length_append]
        omega
      exact h (List.prefix_of_prefix_length_le hp hq hle).isInfix
    rw [List.cons_append, replaceFirst_cons_skip x _ pat rep hnp, ih]
    · rfl
    · intro hi
      exact h (by rw [List.cons_append]; exact List.infix_cons hi)

theorem applyRules_cons (r : String × String) (rs : List (String × String)) (s : List Char) :
    applyRules (r :: rs) s = applyRules rs (replaceFirst s r.1.data r.2.data) := rfl

/-- A chain none of whose source texts occurs in the text returns the text. -/
theorem applyRules_absent (rs : List (String × String)) (s : List Char)
    (h : ∀ r ∈ rs, ¬ r.1.data <:+: s) : applyRules rs s = s := by
  induction rs with
  | nil => rfl
  | cons r rs ih =>
    rw [applyRules_cons, replaceFirst_absent s _ _ (h r (List.mem_cons_self _ _))]
    exact ih (fun q hq => h q (List.mem_cons_of_mem _ hq))

theorem weight_append (a b : List Char) : weight (a ++ b) = weight a + weight b := by
  simp [weight]

/-- Replacing an occurrence moves the weight by the difference of the two texts. -/
theorem weight_replaceFirst (s pat rep : List Char) (h : pat <:+: s) :
    weight (replaceFirst s pat rep) = weight s + (weight rep - weight pat) := by
  obtain ⟨pre, post, hs, hr⟩ := replaceFirst_present s pat rep h
  rw [hr, hs]
  simp only [weight_append]
  ring

/-- In a chain whose rules either change nothing or raise the weight, the weight never
falls, and when it is the same at the end no rule that changes something has its source
text in the input. -/
theorem applyRules_weight (rs : List (String × String))
    (hrs : ∀ r ∈ rs, r.1 = r.2 ∨ weight r.1.data < weight r.2.data) (s : List Char) :
    weight s ≤ weight (applyRules rs s) ∧
    (weight (applyRules rs s) = weight s → ∀ r ∈ rs, r.1 ≠ r.2 → ¬ r.1.data <:+: s) := by
  induction rs generalizing s with
  | nil => exact ⟨le_rfl, fun _ r hr => absurd hr (List.not_mem_nil r)⟩
  | cons r rs ih =>
    have hr := hrs r (List.mem_cons_self _ _)
    obtain ⟨hle, hrest⟩ :=
      ih (fun q hq => hrs q (List.mem_cons_of_mem _ hq)) (replaceFirst s r.1.data r.2.data)
    have hstep : weight s ≤ weight (replaceFirst s r.1.data r.2.data) := by
      by_cases hi : r.1.data <:+: s
      · rw [weight_replaceFirst s _ _ hi]
        rcases hr with heq | hlt
        · rw [heq]; simp
        · linarith
      · rw [replaceFirst_absent s _ _ hi]
    rw [applyRules_cons]
    refine ⟨le_trans hstep hle, ?_⟩
    intro hw q hq hne
    have hw1 : weight (replaceFirst s r.1.data r.2.data) = weight s := by linarith
    have hsame : replaceFirst s r.1.data r.2.data = s := by
      by_cases hi : r.1.data <:+: s
      · rcases hr with heq | hlt
        · rw [heq]; exact replaceFirst_self s _
        · rw [weight_replaceFirst s _ _ hi] at hw1
          linarith
      · exact replaceFirst_absent s _ _ hi
    rcases List.mem_cons.1 hq with rfl | hq
    · intro hi
      rcases hr with heq | hlt
      · exact hne heq
      · rw [weight_replaceFirst s _ _ hi] at hw1
        linarith
    · have := hrest (by rw [hw, hw1]) q hq hne
      rwa [hsame] at this

/-- Every rule of either table changes nothing or raises the weight. -/
theorem rules_weight :
    (∀ r ∈ rules, r.1 = r.2 ∨ weight r.1.data < weight r.2.data) ∧
    (∀ r ∈ rulesPage, r.1 = r.2 ∨ weight r.1.data < weight r.2.data) := by
  decide

/-- A pattern that occurs in `a ++ M ++ rest` and cannot overlap `M` (no non-empty end of
`M` starts like the pattern, no non-empty end of the pattern starts like `M`) occurs in `a`
or in `rest`. -/
theorem infix_of_infix_append (p M a rest : List Char)
    (hM : ∀ m ∈ M.tails, m ≠ [] → ¬ p <+: m ∧ ¬ m <+: p)
    (hp : ∀ q ∈ p.tails, q ≠ [] → ¬ q <+: M ∧ ¬ M <+: q)
    (h : p <:+: a ++ (M ++ rest)) : p <:+: a ∨ p <:+: rest := by
  obtain ⟨pre, post, h⟩ := h
  rw [List.append_assoc] at h
  rcases List.append_eq_append_iff.1 h with ⟨a1, ha, hb⟩ | ⟨c1, ha, hb⟩
  · rcases List.append_eq_append_iff.1 hb with ⟨x, hx, -⟩ | ⟨q, hq, hq2⟩
    · left
      exact ⟨pre, x, by rw [ha, hx, List.append_assoc]⟩
    · by_cases hqn : q = []
      · left
        subst hqn
        exact ⟨pre, [], by rw [ha, hq]; simp⟩
      · exfalso
        have hmem : q ∈ p.tails := (List.mem_tails _ _).2 ⟨a1, hq.symm⟩
        have h1 : q <+: M ++ rest := ⟨post, hq2.symm⟩
        have h2 : M <+: M ++ rest := List.prefix_append M rest
        rcases List.prefix_or_prefix_of_prefix h1 h2 with h3 | h3
        · exact (hp q hmem hqn).1 h3
        · exact (hp q hmem hqn).2 h3
  · rcases List.append_eq_append_iff.1 hb with ⟨x, -, hx⟩ | ⟨m, hm, hm2⟩
    · right
      exact ⟨x, post, by rw [hx, List.append_assoc]⟩
    · by_cases hmn : m = []
      · right
        subst hmn
        exact ⟨[], post, by simpa using hm2⟩
      · exfalso
        have hmem : m ∈ M.tails := (List.mem_tails _ _).2 ⟨c1, hm.symm⟩
        have h1 : p <+: m ++ rest := ⟨post, hm2⟩
        have h2 : m <+: m ++ rest := List.prefix_append m rest
        rcases List.prefix_or_prefix_of_prefix h1 h2 with h3 | h3
        · exact (hM m hmem hmn).1 h3
        · exact (hM m hmem hmn).2 h3

theorem applyRules_append (rs1 rs2 : List (String × String)) (s : List Char) :
    applyRules (rs1 ++ rs2) s = applyRules rs2 (applyRules rs1 s) := by
  simp [applyRules, List.foldl_append]

/-- A chain with the rule "Czechia" → "Czech Republic" in it, on a text in which the other
source texts do not occur and "Czechia" occurs first right after `a`: only that occurrence
is rewritten. -/
theorem applyRules_czechia (rs1 rs2 : List (String × String)) (a rest : List Char)
    (h1 : ∀ r ∈ rs1, ¬ r.1.data <:+: a ++ ("Czechia".data ++ rest))
    (h2 : ¬ "Czechia".data <:+: a ++ "Czechi".data)
    (h3 : ∀ r ∈ rs2, ¬ r.1.data <:+: a ++ ("Czechia".data ++ rest))
    (hov : ∀ r ∈ rs2,
      (∀ m ∈ "Czech Republic".data.tails, m ≠ [] → ¬ r.1.data <+: m ∧ ¬ m <+: r.1.data) ∧
      (∀ q ∈ r.1.data.tails, q ≠ [] →
        ¬ q <+: "Czech Republic".data ∧ ¬ "Czech Republic".data <+: q)) :
    applyRules (rs1 ++ ("Czechia", "Czech Republic") :: rs2) (a ++ ("Czechia".data ++ rest))
      = a ++ ("Czech Republic".data ++ rest) := by
  rw [applyRules_append, applyRules_absent rs1 _ h1, applyRules_cons]
  have hstep : replaceFirst (a ++ ("Czechia".data ++ rest)) "Czechia".data
      "Czech Republic".data = a ++ ("Czech Republic".data ++ rest) :=
    replaceFirst_append a _ _ rest (by decide) h2
  rw [hstep]
  apply applyRules_absent
  intro r hr hi
  rcases infix_of_infix_append _ _ a rest (hov r hr).1 (hov r hr).2 hi with ha | hrest
  · exact h3 r hr (ha.trans (List.infix_append' [] a _))
  · exact h3 r hr (hrest.trans
      ⟨a ++ "Czechia".data, [], by simp⟩)

/-- The rule tables around the rule for "Czechia", and the source texts after it, none of
which can overlap "Czech Republic". -/
theorem rules_split :
    rules = rules.take 2 ++ ("Czechia", "Czech Republic") :: rules.drop 3 ∧
    rulesPage = rulesPage.take 2 ++ ("Czechia", "Czech Republic") :: rulesPage.drop 3 ∧
    (∀ r ∈ rules.take 2, r ∈ rules ∧ r.1 ≠ "Czechia") ∧
    (∀ r ∈ rules.drop 3, r ∈ rules ∧ r.1 ≠ "Czechia") ∧
    (∀ r ∈ rulesPage.take 2, r ∈ rules ∧ r.1 ≠ "Czechia") ∧
    (∀ r ∈ rulesPage.drop 3, r ∈ rules ∧ r.1 ≠ "Czechia") := by
  decide

/-- No rule has an empty source text. -/
theorem rules_source_ne_nil : ∀ r ∈ rules, r.1.data ≠ [] := by
  decide

theorem rules_noOverlap :
    ∀ r ∈ rules.drop 3,
      (∀ m ∈ "Czech Republic".data.tails, m ≠ [] → ¬ r.1.data <+: m ∧ ¬ m <+: r.1.data) ∧
      (∀ q ∈ r.1.data.tails, q ≠ [] →
        ¬ q <+: "Czech Republic".data ∧ ¬ "Czech Republic".data <+: q) := by
  decide

theorem rulesPage_noOverlap :
    ∀ r ∈ rulesPage.drop 3,
      (∀ m ∈ "Czech Republic".data.tails, m ≠ [] → ¬ r.1.data <+: m ∧ ¬ m <+: r.1.data) ∧
      (∀ q ∈ r.1.data.tails, q ≠ [] →
        ¬ q <+: "Czech Republic".data ∧ ¬ "Czech Republic".data <+: q) := by
  decide

/-- C15: `normalizeName` maps each raw label of its rule table exactly to its canonical
name, in both source files; the rules after the one that applies leave the result as it
is. -/
theorem normalizeName_table :
    (normalizeName "United States of America" = "United States" ∧
      normalizeName "Russian Federation" = "Russia" ∧
      normalizeName "Czechia" = "Czech Republic" ∧
      normalizeName "Korea, Republic of" = "South Korea" ∧
      normalizeName "Korea (Republic of)" = "South Korea" ∧
      normalizeName "Korea, South" = "South Korea" ∧
      normalizeName "Taiwan, Province of China" = "Taiwan" ∧
      normalizeName "Hong Kong" = "Hong Kong SAR" ∧
      normalizeName "Macao" = "Macao SAR, China" ∧
      normalizeName "Bahamas" = "The Bahamas" ∧
      normalizeName "Cayman Islands" = "The Cayman Islands") ∧
    (normalizeNamePage "United States of America" = "United States" ∧
      normalizeNamePage "Russian Federation" = "Russia" ∧
      normalizeNamePage "Czechia" = "Czech Republic" ∧
      normalizeNamePage "Korea, Republic of" = "South Korea" ∧
      normalizeNamePage "Korea (Republic of)" = "South Korea" ∧
      normalizeNamePage "Korea, South" = "South Korea" ∧
      normalizeNamePage "Taiwan, Province of China" = "Taiwan" ∧
      normalizeNamePage "Hong Kong" = "Hong Kong SAR" ∧
      normalizeNamePage "Macao" = "Macao SAR, China" ∧
      normalizeNamePage "Bahamas" = "The Bahamas" ∧
      normalizeNamePage "Cayman Islands" = "The Cayman Islands") := by
  refine ⟨⟨?_, ?_, ?_, ?_, ?_, ?_, ?_, ?_, ?_, ?_, ?_⟩, ⟨?_, ?_, ?_, ?_, ?_, ?_, ?_, ?_, ?_, ?_, ?_⟩⟩ <;>
    decide

/-- The rules of `page.js` are rules of the .jsx table, and the rules of the .jsx table that
change something are rules of `page.js`. -/
theorem rulesPage_subset :
    (∀ r ∈ rulesPage, r ∈ rules) ∧ (∀ r ∈ rules, r.1 ≠ r.2 → r ∈ rulesPage) := by
  decide

/-- C16: a label that contains none of the rule source texts of `normalizeName` as a
substring is returned unchanged, in both source files. -/
theorem normalizeName_unchanged (name : String)
    (h : ∀ r ∈ rules, ¬ r.1.data <:+: name.data) :
    normalizeName name = name ∧ normalizeNamePage name = name := by
  constructor
  · rw [normalizeName_eq_applyRules, applyRules_absent rules _ h]
  · rw [normalizeNamePage_eq_applyRules,
      applyRules_absent rulesPage _ (fun r hr => h r (rulesPage_subset.1 r hr))]

/-- Witness of C16: "France" contains no rule source text and is returned unchanged. -/
theorem normalizeName_unchanged_witness :
    (∀ r ∈ rules, ¬ r.1.data <:+: "France".data) ∧
    normalizeName "France" = "France" ∧ normalizeNamePage "France" = "France" :=
  ⟨by decide, normalizeName_unchanged "France" (by decide)⟩

/-- C17 as stated fails: "Netherlands" is the source text of a rule of `normalizeName`, the
label "The Netherlands" contains it, and `normalizeName` returns the label itself. -/
theorem normalizeName_netherlands :
    ("Netherlands", "Netherlands") ∈ rules ∧
    "Netherlands".data <:+: "The Netherlands".data ∧
    normalizeName "The Netherlands" = "The Netherlands" ∧
    normalizeName "Netherlands" = "Netherlands" := by
  refine ⟨?_, ?_, ?_, ?_⟩ <;> decide

/-- C17, amended: a label that contains, anywhere in it, the source text of a rule of
`normalizeName` whose replacement is not the source text itself (every rule but those for
"Netherlands", "United Arab Emirates" and "Seychelles") is mapped to a different string,
in both source files. -/
theorem normalizeName_changes (name : String) (r : String × String) (hr : r ∈ rules)
    (hne : r.1 ≠ r.2) (hin : r.1.data <:+: name.data) :
    normalizeName name ≠ name ∧ normalizeNamePage name ≠ name := by
  constructor
  · intro heq
    rw [normalizeName_eq_applyRules] at heq
    have hd := congrArg String.data heq
    simp only at hd
    have hw : weight (applyRules rules name.data) = weight name.data := by rw [hd]
    exact (applyRules_weight rules rules_weight.1 name.data).2 hw r hr hne hin
  · intro heq
    rw [normalizeNamePage_eq_applyRules] at heq
    have hd := congrArg String.data heq
    simp only at hd
    have hw : weight (applyRules rulesPage name.data) = weight name.data := by rw [hd]
    exact (applyRules_weight rulesPage rules_weight.2 name.data).2 hw r
      (rulesPage_subset.2 r hr hne) hne hin

/-- Witness of the amended C17: "Hong Kong, China" contains "Hong Kong". -/
theorem normalizeName_changes_witness :
    ("Hong Kong", "Hong Kong SAR") ∈ rules ∧ "Hong Kong" ≠ "Hong Kong SAR" ∧
    "Hong Kong".data <:+: "Hong Kong, China".data ∧
    normalizeName "Hong Kong, China" ≠ "Hong Kong, China" ∧
    normalizeNamePage "Hong Kong, China" ≠ "Hong Kong, China" :=
  ⟨by decide, by decide, by decide,
    normalizeName_changes "Hong Kong, China" ("Hong Kong", "Hong Kong SAR") (by decide)
      (by decide) (by decide)⟩

/-- C19: `normalizeName` is not idempotent and its canonical outputs are not fixed points:
"Hong Kong" gives "Hong Kong SAR", which gives "Hong Kong SAR SAR", and "The Bahamas"
gives "The The Bahamas", although "Hong Kong SAR" and "The Bahamas" are keys of
`heatmapPercent`. -/
theorem normalizeName_not_idempotent :
    (∃ x, normalizeName (normalizeName x) ≠ normalizeName x) ∧
    normalizeName "Hong Kong" = "Hong Kong SAR" ∧
    normalizeName "Hong Kong SAR" = "Hong Kong SAR SAR" ∧
    normalizeName "The Bahamas" = "The The Bahamas" ∧
    "Hong Kong SAR" ∈ heatmapPercent.map Prod.fst ∧
    "The Bahamas" ∈ heatmapPercent.map Prod.fst ∧
    (∃ x, normalizeNamePage (normalizeNamePage x) ≠ normalizeNamePage x) ∧
    normalizeNamePage "Hong Kong SAR" = "Hong Kong SAR SAR" ∧
    normalizeNamePage "The Bahamas" = "The The Bahamas" := by
  refine ⟨⟨"Hong Kong", ?_⟩, ?_, ?_, ?_, ?_, ?_, ⟨"Hong Kong", ?_⟩, ?_, ?_⟩ <;> decide

/-- C20: the rule for "Czechia" rewrites only the first occurrence. For all strings `a`,
`b`, `c` such that no other rule source text occurs in `a + "Czechia" + b + "Czechia" + c`
and "Czechia" does not occur before the first displayed occurrence (it does not occur in
`a + "Czechi"`), `normalizeName` returns `a + "Czech Republic" + b + "Czechia" + c`, in both
source files. And for each rule the single `replace` call rewrites the first occurrence of
its source text only: what follows that occurrence is kept as it is. -/
theorem normalizeName_first_occurrence (a b c : String)
    (h1 : ∀ r ∈ rules, r.1 ≠ "Czechia" →
      ¬ r.1.data <:+: (a ++ "Czechia" ++ b ++ "Czechia" ++ c).data)
    (h2 : ¬ "Czechia".data <:+: (a ++ "Czechi").data) :
    normalizeName (a ++ "Czechia" ++ b ++ "Czechia" ++ c)
      = a ++ "Czech Republic" ++ b ++ "Czechia" ++ c ∧
    normalizeNamePage (a ++ "Czechia" ++ b ++ "Czechia" ++ c)
      = a ++ "Czech Republic" ++ b ++ "Czechia" ++ c ∧
    (∀ r ∈ rules, ∀ x y : String, ¬ r.1.data <:+: x.data ++ r.1.data.dropLast →
      replace (x ++ r.1 ++ y) r.1 r.2 = x ++ r.2 ++ y) := by
  have hdata : (a ++ "Czechia" ++ b ++ "Czechia" ++ c).data
      = a.data ++ ("Czechia".data ++ (b.data ++ "Czechia".data ++ c.data)) := by
    simp only [String.data_append, List.append_assoc]
  have hout : (a ++ "Czech Republic" ++ b ++ "Czechia" ++ c)
      = ⟨a.data ++ ("Czech Republic".data ++ (b.data ++ "Czechia".data ++ c.data))⟩ := by
    apply String.ext
    simp only [String.data_append, List.append_assoc]
  rw [hdata] at h1
  rw [String.data_append] at h2
  obtain ⟨hs, hsP, ht, hd, htP, hdP⟩ := rules_split
  refine ⟨?_, ?_, ?_⟩
  · rw [normalizeName_eq_applyRules, hout, hdata, hs]
    rw [applyRules_czechia (rules.take 2) (rules.drop 3) a.data _
      (fun r hr => h1 r (ht r hr).1 (ht r hr).2) h2
      (fun r hr => h1 r (hd r hr).1 (hd r hr).2) rules_noOverlap]
  · rw [normalizeNamePage_eq_applyRules, hout, hdata, hsP]
    rw [applyRules_czechia (rulesPage.take 2) (rulesPage.drop 3) a.data _
      (fun r hr => h1 r (htP r hr).1 (htP r hr).2) h2
      (fun r hr => h1 r (hdP r hr).1 (hdP r hr).2) rulesPage_noOverlap]
  · intro r hr x y hx
    apply String.ext
    simp only [replace, String.data_append, List.append_assoc]
    exact replaceFirst_append x.data r.1.data r.2.data y.data (rules_source_ne_nil r hr) hx

/-- Witness of C20: "Czechia, Czechia" becomes "Czech Republic, Czechia". -/
theorem normalizeName_first_occurrence_witness :
    (∀ r ∈ rules, r.1 ≠ "Czechia" →
      ¬ r.1.data <:+: ("" ++ "Czechia" ++ ", " ++ "Czechia" ++ "").data) ∧
    (¬ "Czechia".data <:+: ("" ++ "Czechi").data) ∧
    normalizeName "Czechia, Czechia" = "Czech Republic, Czechia" ∧
    normalizeNamePage "Czechia, Czechia" = "Czech Republic, Czechia" :=
  ⟨by decide, by decide,
    (normalizeName_first_occurrence "" ", " "" (by decide) (by decide)).1,
    (normalizeName_first_occurrence "" ", " "" (by decide) (by decide)).2.1⟩

/-! ## Centroid capture: properties -/

/-- No key of `heatmapPercent`, no member of `officeCountries` and no normalized member of
`officeCountries` is the name of an inherited property. -/
theorem tables_not_inherited :
    (∀ k ∈ heatmapPercent.map Prod.fst, k ∉ inherited) ∧
    (∀ k ∈ officeCountries, k ∉ inherited) ∧
    (∀ r ∈ officeCountries, normalizeName r ∉ inherited) := by
  refine ⟨?_, ?_, ?_⟩ <;> decide

/-- A name that counts as an office country in the .jsx file is not the name of an inherited
property. -/
theorem hasOffice_not_inherited (rawName : String)
    (h : hasOffice (normalizeName rawName) rawName = true) :
    normalizeName rawName ∉ inherited := by
  simp only [hasOffice, Bool.or_eq_true, decide_eq_true_eq] at h
  rcases h with (h | h) | h
  · exact tables_not_inherited.1 _ h
  · exact tables_not_inherited.2.1 _ h
  · exact tables_not_inherited.2.2 _ h

/-- Under a name that is not inherited, `centroids[name]` is falsy exactly when the object
holds no entry under the name. -/
theorem truthy_eq_false_iff {β : Type} (centroids : Centroids β) (name : String)
    (hname : name ∉ inherited) :
    ¬ truthy centroids name = true ↔ centroids name = none := by
  simp only [truthy, Bool.or_eq_true, decide_eq_true_eq, hname, or_false]
  cases centroids name <;> simp

/-- Assigning under a key gives that key the value and leaves the other keys as they are. -/
theorem put_self {β : Type} (obj : Centroids β) (name : String) (c : Coord β) :
    put obj name c name = some c := by
  simp [put]

theorem put_of_ne {β : Type} (obj : Centroids β) (name n : String) (c : Coord β)
    (hne : n ≠ name) : put obj name c n = obj n := by
  simp [put, hne]

/-- The capture step of the .jsx file once `geoCentroid` has returned `[cx, cy]`: the entry is
written exactly when the name counts as an office country, `cx` and `cy` are not 0 and the
object holds no entry under the name; otherwise the object is left as it is. -/
theorem captureStep_of_centroid (centroids : Centroids α) (g : Geography α)
    (cx cy : α) (hc : geoCentroid g.geo = some (cx, cy)) :
    captureStep centroids g
      = some (if hasOffice (normalizeName g.name) g.name = true ∧ cx ≠ 0 ∧ cy ≠ 0 ∧
            centroids (normalizeName g.name) = none
          then put centroids (normalizeName g.name) (cx, cy) else centroids) := by
  simp only [captureStep, hc]
  by_cases h : hasOffice (normalizeName g.name) g.name = true ∧ cx ≠ 0 ∧ cy ≠ 0
  · rw [if_pos h]
    have hiff := truthy_eq_false_iff centroids _ (hasOffice_not_inherited g.name h.1)
    by_cases hl : centroids (normalizeName g.name) = none
    · rw [if_neg (hiff.2 hl), if_pos ⟨h.1, h.2.1, h.2.2, hl⟩]
    · have ht : truthy centroids (normalizeName g.name) = true := by
        by_contra hnt
        exact hl (hiff.1 hnt)
      rw [if_pos ht, if_neg (fun hh => hl hh.2.2.2)]
  · rw [if_neg h, if_neg (fun hh => h ⟨hh.1, hh.2.1, hh.2.2.1⟩)]

/-- The capture step of `page.js` once `geoCentroid` has returned `[cx, cy]`, for a table
none of whose keys is the name of an inherited property: `setCentroids` is called, with the
updater for the name and `[cx, cy]`, exactly when the name is a key of the table, `cx` and
`cy` are not 0 and `centroids` holds no entry under the name. -/
theorem captureStepPage_of_centroid (hp : List (String × ℚ))
    (hhp : ∀ k ∈ hp.map Prod.fst, k ∉ inherited)
    (centroids : Centroids α) (g : Geography α)
    (cx cy : α) (hc : geoCentroid g.geo = some (cx, cy)) :
    captureStepPage hp centroids g
      = some (if hasOfficePage hp (normalizeNamePage g.name) = true ∧ cx ≠ 0 ∧ cy ≠ 0 ∧
            centroids (normalizeNamePage g.name) = none
          then some (normalizeNamePage g.name, (cx, cy)) else none) := by
  simp only [captureStepPage, hc]
  by_cases h : hasOfficePage hp (normalizeNamePage g.name) = true ∧ cx ≠ 0 ∧ cy ≠ 0
  · rw [if_pos h]
    have hkey : normalizeNamePage g.name ∈ hp.map Prod.fst := by
      simpa [hasOfficePage] using h.1
    have hiff := truthy_eq_false_iff centroids _ (hhp _ hkey)
    by_cases hl : centroids (normalizeNamePage g.name) = none
    · rw [if_neg (hiff.2 hl), if_pos ⟨h.1, h.2.1, h.2.2, hl⟩]
    · have ht : truthy centroids (normalizeNamePage g.name) = true := by
        by_contra hnt
        exact hl (hiff.1 hnt)
      rw [if_pos ht, if_neg (fun hh => hl hh.2.2.2)]
  · rw [if_neg h, if_neg (fun hh => h ⟨hh.1, hh.2.1, hh.2.2.1⟩)]

/-- A step of the .jsx file that returns has a centroid to work with. -/
theorem captureStep_some (centroids s : Centroids α) (g : Geography α)
    (h : captureStep centroids g = some s) : ∃ cx cy, geoCentroid g.geo = some (cx, cy) := by
  cases hc : geoCentroid g.geo with
  | none => simp [captureStep, hc] at h
  | some c => exact ⟨c.1, c.2, rfl⟩

/-- A step of the .jsx file keeps every entry of `centroids` with its value. -/
theorem captureStep_keeps (centroids s : Centroids α) (g : Geography α)
    (h : captureStep centroids g = some s) (n : String) (c : Coord α)
    (hn : centroids n = some c) : s n = some c := by
  obtain ⟨cx, cy, hc⟩ := captureStep_some centroids s g h
  rw [captureStep_of_centroid centroids g cx cy hc] at h
  injection h with h
  subst h
  split
  · next hcond =>
    have hne : n ≠ normalizeName g.name := by
      intro heq
      rw [← heq, hn] at hcond
      simp at hcond
    rw [put_of_ne _ _ _ _ hne]
    exact hn
  · exact hn

/-- A step of the .jsx file adds at most the entry of its geography, and only for an office
name and a centroid with both coordinates other than 0. -/
theorem captureStep_recorded (centroids s : Centroids α) (g : Geography α)
    (h : captureStep centroids g = some s) (n : String) (c : Coord α)
    (hn : s n = some c) :
    centroids n = some c ∨
      (normalizeName g.name = n ∧ geoCentroid g.geo = some c ∧
        hasOffice n g.name = true ∧ c.1 ≠ 0 ∧ c.2 ≠ 0 ∧ centroids n = none) := by
  obtain ⟨cx, cy, hc⟩ := captureStep_some centroids s g h
  rw [captureStep_of_centroid centroids g cx cy hc] at h
  injection h with h
  subst h
  split at hn
  · next hcond =>
    by_cases hk : n = normalizeName g.name
    · right
      subst hk
      rw [put_self] at hn
      injection hn with hn
      subst hn
      exact ⟨rfl, hc, hcond.1, hcond.2.1, hcond.2.2.1, hcond.2.2.2⟩
    · left
      rw [put_of_ne _ _ _ _ hk] at hn
      exact hn
  · left
    exact hn

/-- The loop of the .jsx file keeps every entry of `centroids` with its value: a recorded
centroid is not overwritten and not removed. -/
theorem capturePass_keeps (geos : List (Geography α)) (centroids s : Centroids α)
    (h : capturePass centroids geos = some s) (n : String) (c : Coord α)
    (hn : centroids n = some c) : s n = some c := by
  induction geos generalizing centroids with
  | nil =>
    simp only [capturePass, List.foldlM_nil] at h
    injection h with h
    rw [← h]
    exact hn
  | cons g gs ih =>
    simp only [capturePass, List.foldlM_cons] at h
    cases hstep : captureStep centroids g with
    | none => rw [hstep] at h; simp at h
    | some s1 =>
      rw [hstep] at h
      exact ih s1 h (captureStep_keeps centroids s1 g hstep n c hn)

/-- Every entry the loop of the .jsx file leaves was there before or comes from a geography
of the list with that normalized name, an office, and a centroid with both coordinates other
than 0. -/
theorem capturePass_recorded (geos : List (Geography α)) (centroids s : Centroids α)
    (h : capturePass centroids geos = some s) (n : String) (c : Coord α)
    (hn : s n = some c) :
    centroids n = some c ∨
      ∃ g ∈ geos, normalizeName g.name = n ∧ geoCentroid g.geo = some c ∧
        hasOffice n g.name = true ∧ c.1 ≠ 0 ∧ c.2 ≠ 0 := by
  induction geos generalizing centroids with
  | nil =>
    simp only [capturePass, List.foldlM_nil] at h
    injection h with h
    left
    rw [h]
    exact hn
  | cons g gs ih =>
    simp only [capturePass, List.foldlM_cons] at h
    cases hstep : captureStep centroids g with
    | none => rw [hstep] at h; simp at h
    | some s1 =>
      rw [hstep] at h
      rcases ih s1 h with h1 | ⟨g2, hg2, hrest⟩
      · rcases captureStep_recorded centroids s1 g hstep n c h1 with h0 | ⟨e1, e2, e3, e4, e5, -⟩
        · left
          exact h0
        · right
          exact ⟨g, List.mem_cons_self _ _, e1, e2, e3, e4, e5⟩
      · right
        exact ⟨g2, List.mem_cons_of_mem _ hg2, hrest⟩

/-- A name without an entry in `centroids` gets no connector, whatever the order in which
`Object.entries` lists the object. -/
theorem connections_country_ne (M : Math α) (dcs : List (DC α))
    (es : List (String × Coord α)) (centroids : Centroids α) (hes : IsEntries es centroids)
    (n : String) (hn : centroids n = none) :
    ∀ k ∈ connections M dcs es, k.country ≠ n := by
  intro k hk hkn
  rw [connections_eq_filterMap, List.mem_filterMap] at hk
  obtain ⟨e, he, hmap⟩ := hk
  cases hnear : nearest M dcs e.2 with
  | none => rw [hnear] at hmap; simp at hmap
  | some b =>
    rw [hnear] at hmap
    simp only [Option.map_some', Option.some.injEq] at hmap
    have hc : k.country = e.1 := by rw [← hmap]
    have hsome : centroids e.1 = some e.2 := (hes.2 e.1 e.2).1 he
    rw [← hc, hkn, hn] at hsome
    simp at hsome

/-- C21: the centroid capture step, once `geoCentroid` has returned `[cx, cy]`, in both
files (for `page.js` the table `heatmapPercent` is any table whose keys are not names of
inherited properties). The centroid is recorded under the normalized name (written into
`centroids` in the .jsx file, handed to `setCentroids` in `page.js`) if and only if the name
counts as an office country, `cx` and `cy` are both non-zero and `centroids` holds no entry
under the name. With a coordinate 0, as for the default `[0, 0]`, nothing is recorded. An
entry that `centroids` already holds is not overwritten and not removed: the .jsx step keeps
it, and the updater of `page.js` writes under a name without an entry in the `centroids` the
step read and leaves every other key as it is. A name without an entry gets no connector. -/
theorem capture_step (hp : List (String × ℚ)) (hhp : ∀ k ∈ hp.map Prod.fst, k ∉ inherited)
    (centroids : Centroids α) (g : Geography α) (cx cy : α)
    (hc : geoCentroid g.geo = some (cx, cy)) :
    (captureStep centroids g
      = some (if hasOffice (normalizeName g.name) g.name = true ∧ cx ≠ 0 ∧ cy ≠ 0 ∧
            centroids (normalizeName g.name) = none
          then put centroids (normalizeName g.name) (cx, cy) else centroids)) ∧
    (captureStepPage hp centroids g
      = some (if hasOfficePage hp (normalizeNamePage g.name) = true ∧ cx ≠ 0 ∧ cy ≠ 0 ∧
            centroids (normalizeNamePage g.name) = none
          then some (normalizeNamePage g.name, (cx, cy)) else none)) ∧
    (cx = 0 ∨ cy = 0 →
      captureStep centroids g = some centroids ∧ captureStepPage hp centroids g = some none) ∧
    (∀ s, captureStep centroids g = some s →
      ∀ n c, centroids n = some c → s n = some c) ∧
    (∀ u, captureStepPage hp centroids g = some (some u) →
      centroids u.1 = none ∧
      (∀ prev : Centroids α, ∀ n, n ≠ u.1 → updater u.1 u.2 prev n = prev n) ∧
      (∀ n c, centroids n = some c → updater u.1 u.2 centroids n = some c)) ∧
    (∀ (M : Math α) (dcs : List (DC α)) (es : List (String × Coord α)),
      IsEntries es centroids → ∀ n, centroids n = none →
        ∀ k ∈ connections M dcs es, k.country ≠ n) := by
  have hjsx := captureStep_of_centroid centroids g cx cy hc
  have hpage := captureStepPage_of_centroid hp hhp centroids g cx cy hc
  refine ⟨hjsx, hpage, ?_, ?_, ?_, ?_⟩
  · intro hz
    have hnz : ¬ (cx ≠ 0 ∧ cy ≠ 0) := by
      rintro ⟨h1, h2⟩
      rcases hz with hz | hz
      · exact h1 hz
      · exact h2 hz
    rw [hjsx, hpage, if_neg (fun hh => hnz ⟨hh.2.1, hh.2.2.1⟩),
      if_neg (fun hh => hnz ⟨hh.2.1, hh.2.2.1⟩)]
    exact ⟨rfl, rfl⟩
  · intro s hs n c hn
    exact captureStep_keeps centroids s g hs n c hn
  · intro u hu
    rw [hpage] at hu
    injection hu with hu
    split at hu
    · next hcond =>
      injection hu with hu
      subst hu
      refine ⟨hcond.2.2.2, ?_, ?_⟩
      · intro prev n hne
        exact put_of_ne prev _ n _ hne
      · intro n c hn
        have hne : n ≠ normalizeNamePage g.name := by
          intro heq
          rw [← heq, hn] at hcond
          simp at hcond
        rw [updater, put_of_ne _ _ _ _ hne]
        exact hn
    · simp at hu
  · intro M dcs es hes n hn
    exact connections_country_ne M dcs es centroids hes n hn

/-- Witness of C21: the geography "France" with bounding box [0, 0, 2, 2], centroid [1, 1],
no centroid recorded yet, and the table of the .jsx file for `page.js`. -/
theorem capture_step_witness :
    (∀ k ∈ heatmapPercent.map Prod.fst, k ∉ inherited) ∧
    geoCentroid (⟨some [0, 0, 2, 2], .other⟩ : Geo ℚ) = some (1, 1) ∧
    captureStep (fun _ => none) (⟨"France", ⟨some [0, 0, 2, 2], .other⟩⟩ : Geography ℚ)
      = some (put (fun _ => none) "France" (1, 1)) ∧
    captureStepPage heatmapPercent (fun _ => none)
        (⟨"France", ⟨some [0, 0, 2, 2], .other⟩⟩ : Geography ℚ)
      = some (some ("France", (1, 1))) := by
  have hc : geoCentroid (⟨some [0, 0, 2, 2], .other⟩ : Geo ℚ) = some (1, 1) := by
    simp only [geoCentroid]
    norm_num
  have hn : normalizeName "France" = "France" := by decide
  have hnP : normalizeNamePage "France" = "France" := by decide
  have ho : hasOffice "France" "France" = true := by decide
  have hoP : hasOfficePage heatmapPercent "France" = true := by decide
  have h := capture_step heatmapPercent tables_not_inherited.1 (fun _ => none)
    (⟨"France", ⟨some [0, 0, 2, 2], .other⟩⟩ : Geography ℚ) 1 1 hc
  refine ⟨tables_not_inherited.1, hc, ?_, ?_⟩
  · rw [h.1, hn, if_pos ⟨ho, one_ne_zero, one_ne_zero, rfl⟩]
  · rw [h.2.1, hnP, if_pos ⟨hoP, one_ne_zero, one_ne_zero, rfl⟩]

end Savills
